import Mathlib

/-
Verification of the Game of Life grid engine (grid.cpp, world.cpp, zoo.cpp).

The C++ classes are shallowly embedded: a Grid is its width, height and the
flat row-major cell buffer; every operation that can throw is modelled with
Option (none = an exception escaped) or, where the partially mutated object
matters, with Except Grid Grid (error = exception thrown, carrying the state
of the object at that moment).  Unsigned 32-bit arithmetic from the source is
modelled with explicit reduction modulo 2 ^ 32; raw std::vector reads done by
the source without a bounds check are modelled with List.getD.
-/

/-- Cell is a two-valued enum backed by char: DEAD = 32, ALIVE = 35. -/
inductive Cell where
  | dead : Cell
  | alive : Cell
deriving DecidableEq, Repr

/-- Numeric char value of a cell, as in the C++ enum (DEAD is a space, ALIVE
is a hash); used where the source tests a Cell for truthiness. -/
def Cell.charVal : Cell → Nat
  | Cell.dead => 32
  | Cell.alive => 35

/-- Grid: width, height and the flat cell buffer (row-major). -/
structure Grid where
  width : Nat
  height : Nat
  cells : List Cell
deriving DecidableEq, Repr

/-- Well-formedness invariant of a Grid: the buffer length matches the
dimensions.  Every constructor of the source establishes it. -/
def Grid.WF (g : Grid) : Prop := g.cells.length = g.width * g.height

/-- Grid::Grid(width, height): all cells DEAD. -/
def Grid.ofSize (w h : Nat) : Grid := ⟨w, h, List.replicate (w * h) Cell.dead⟩

/-- Grid::get_index(x, y) = width * y + x. -/
def Grid.get_index (g : Grid) (x y : Nat) : Nat := g.width * y + x

/-- Grid::get(x, y): throws (none) when x or y is out of range, else the
cell value. -/
def Grid.get (g : Grid) (x y : Nat) : Option Cell :=
  if x ≥ g.width ∨ y ≥ g.height then none
  else some (g.cells.getD (g.get_index x y) Cell.dead)

/-- Grid::set(x, y, value): throws (none) when x or y is out of range, else
the updated grid. -/
def Grid.set (g : Grid) (x y : Nat) (v : Cell) : Option Grid :=
  if x ≥ g.width ∨ y ≥ g.height then none
  else some { g with cells := g.cells.set (g.get_index x y) v }

/-- Reduction modulo 2 ^ 32, for C++ unsigned int arithmetic. -/
def u32 (n : Nat) : Nat := n % 4294967296

/-- C++ unsigned subtraction a - b (wraps around on underflow). -/
def u32sub (a b : Nat) : Nat := (u32 a + 4294967296 - u32 b) % 4294967296

/-- Grid::resize(square_size).  Faithful to the source: the outer loop runs
to min(square_size, width) and the inner loop to min(square_size, height)
(the source swaps the roles of the two bounds), reads the old buffer at
width * y + x without a bounds check (modelled by getD), and tests the read
cell for truthiness before storing it. -/
def Grid.resize_square (g : Grid) (square_size : Nat) : Grid :=
  let minWidth := min square_size g.width
  let minHeight := min square_size g.height
  let oldGrid := g.cells
  let base := List.replicate (square_size * square_size) Cell.dead
  let cells := (List.range minWidth).foldl (fun acc y =>
    (List.range minHeight).foldl (fun acc2 x =>
      let coordinate := square_size * y + x
      let c := oldGrid.getD (g.width * y + x) Cell.dead
      if c.charVal ≠ 0 then acc2.set coordinate c
      else acc2.set coordinate Cell.dead) acc) base
  ⟨square_size, square_size, cells⟩

/-- Grid::resize(width, height): copies the overlap rectangle row by row. -/
def Grid.resize_wh (g : Grid) (w h : Nat) : Grid :=
  let minWidth := min w g.width
  let minHeight := min h g.height
  let oldGrid := g.cells
  let base := List.replicate (w * h) Cell.dead
  let cells := (List.range minHeight).foldl (fun acc y =>
    (List.range minWidth).foldl (fun acc2 x =>
      let c := oldGrid.getD (g.width * y + x) Cell.dead
      if c.charVal ≠ 0 then acc2.set (w * y + x) c
      else acc2.set (w * y + x) Cell.dead) acc) base
  ⟨w, h, cells⟩

/-- Reduction of the rotation argument, exactly as the source computes it:
rotation = std::abs(rotation % 4 + 4) % 4, with C++ truncated division. -/
def reduceTurns (k : Int) : Int :=
  (Int.natAbs (Int.tmod k 4 + 4) : Int).tmod 4

/-- Offset used by the 90-degree branch of Grid::rotate, in C++ unsigned
arithmetic; the three sub-cases follow the comparison of width and height
in the source. -/
def rotate90Offset (w h x y : Nat) : Nat :=
  if w > h then u32 (u32sub (u32sub (u32 (h * h)) 1) (u32 (x * w)) + y)
  else if w = h then u32 (u32sub (u32 (w * u32sub w 1)) (u32 (x * w)) + y)
  else u32 (u32sub (u32 (w * w)) (u32 (x * w)) + y)

/-- Grid::rotate(rotation): returns a rotated copy; none models an exception
escaping (never happens: all Grid::set calls inside are in range).  The
buffer reads grid[offset] are unchecked in the source and are modelled with
getD. -/
def Grid.rotate (g : Grid) (rotation : Int) : Option Grid :=
  let r := reduceTurns rotation
  if r = 1 then
    (List.range g.width).foldlM (fun acc y =>
      (List.range g.height).foldlM (fun acc2 x =>
        acc2.set x y (g.cells.getD (rotate90Offset g.width g.height x y) Cell.dead))
        acc)
      (Grid.ofSize g.height g.width)
  else if r = 2 then
    (List.range g.height).foldlM (fun acc y =>
      (List.range g.width).foldlM (fun acc2 x =>
        acc2.set x y (g.cells.getD
          (u32sub (u32sub (u32 (g.height * g.width)) 1) (u32 (g.get_index x y)))
          Cell.dead))
        acc)
      (Grid.ofSize g.width g.height)
  else if r = 3 then
    (List.range g.width).foldlM (fun acc y =>
      (List.range g.height).foldlM (fun acc2 x =>
        acc2.set x y (g.cells.getD
          (u32 (u32sub (u32sub (u32 g.width) 1) y + u32 (x * g.width)))
          Cell.dead))
        acc)
      (Grid.ofSize g.height g.width)
  else some g

/-- Grid::merge(other, x0, y0, alive_only): Except models the exception,
carrying the state of the target grid at the moment the throw happens (the
up-front check throws before any write; Grid::set can also throw from inside
the copy loop, after earlier writes already landed). -/
def Grid.merge (g : Grid) (other : Grid) (x0 y0 : Int) (alive_only : Bool) :
    Except Grid Grid :=
  if u32 (other.width * other.height) > u32 (g.width * g.height) ∨ x0 < 0 ∨ y0 < 0 ∨
      x0 > (g.width : Int) ∨ y0 > (g.height : Int) then
    Except.error g
  else
    let mergeX := x0.toNat
    let mergeY := y0.toNat
    (List.range' mergeY other.height).foldlM (fun acc y =>
      (List.range' mergeX other.width).foldlM (fun acc2 x =>
        let position := (y - mergeY) * other.width + (x - mergeX)
        let c := other.cells.getD position Cell.dead
        if !alive_only then
          match acc2.set x y c with
          | some g2 => Except.ok g2
          | none => Except.error acc2
        else
          if c = Cell.alive then
            match acc2.set x y c with
            | some g2 => Except.ok g2
            | none => Except.error acc2
          else Except.ok acc2) acc) g

/-- World: the current state grid and the scratch next-state grid. -/
structure World where
  currentGrid : Grid
  nextGrid : Grid
deriving DecidableEq, Repr

/-- World::get_state() returns the current grid. -/
def World.get_state (wld : World) : Grid := wld.currentGrid

/-- World::get_width() delegates to the current grid. -/
def World.get_width (wld : World) : Nat := wld.currentGrid.width

/-- World::get_height() delegates to the current grid. -/
def World.get_height (wld : World) : Nat := wld.currentGrid.height

/-- World::resize(width, height) resizes only the current grid. -/
def World.resize_wh (wld : World) (w h : Nat) : World :=
  { wld with currentGrid := wld.currentGrid.resize_wh w h }

/-- World::resize(square_size) resizes only the current grid. -/
def World.resize_square (wld : World) (s : Nat) : World :=
  { wld with currentGrid := wld.currentGrid.resize_square s }

/-- Contribution of one neighbour access: 1 when the fetched cell is ALIVE,
0 otherwise; none when the Grid::get call throws. -/
def countIf (oc : Option Cell) : Option Nat :=
  oc.map (fun c => if c = Cell.alive then 1 else 0)

/-- Body of the non-toroidal branch of World::count_neighbours for the pair
(i, j) of the 3x3 loop: skip the centre, skip out-of-range neighbours, count
in-range ALIVE neighbours. -/
def World.neighbourContribBounded (wld : World) (x y i j : Int) : Option Nat :=
  if i = x ∧ j = y then some 0
  else if 0 ≤ i ∧ i < (wld.get_width : Int) ∧ 0 ≤ j ∧ j < (wld.get_height : Int) then
    countIf (wld.get_state.get i.toNat j.toNat)
  else some 0

/-- Body of the toroidal branch of World::count_neighbours for the pair
(i, j): the nested if chain of the source, one case per edge or corner. -/
def World.neighbourContribToroidal (wld : World) (x y i j : Int) : Option Nat :=
  let w := wld.get_width
  let h := wld.get_height
  if i = x ∧ j = y then some 0
  else if i < 0 then
    if j < 0 then countIf (wld.get_state.get (w - 1) (h - 1))
    else if j ≥ (h : Int) then countIf (wld.get_state.get (w - 1) 0)
    else countIf (wld.get_state.get (w - 1) j.toNat)
  else if i ≥ (w : Int) then
    if j < 0 then countIf (wld.get_state.get 0 (h - 1))
    else if j ≥ (h : Int) then countIf (wld.get_state.get 0 0)
    else countIf (wld.get_state.get 0 j.toNat)
  else if j < 0 then countIf (wld.get_state.get i.toNat (h - 1))
  else if j ≥ (h : Int) then countIf (wld.get_state.get i.toNat 0)
  else if 0 ≤ i ∧ i < (w : Int) ∧ 0 ≤ j ∧ j < (h : Int) then
    countIf (wld.get_state.get i.toNat j.toNat)
  else some 0

/-- World::count_neighbours(x, y, toroidal): the 3x3 loop around (x, y),
summing the per-cell contributions. -/
def World.count_neighbours (wld : World) (x y : Int) (toroidal : Bool) : Option Nat :=
  if toroidal = false then
    [y - 1, y, y + 1].foldlM (fun c j =>
      [x - 1, x, x + 1].foldlM (fun c2 i =>
        (wld.neighbourContribBounded x y i j).map (fun d => c2 + d)) c) 0
  else
    [y - 1, y, y + 1].foldlM (fun c j =>
      [x - 1, x, x + 1].foldlM (fun c2 i =>
        (wld.neighbourContribToroidal x y i j).map (fun d => c2 + d)) c) 0

/-- Body of the double loop of World::step for the cell (x, y): fetch the
neighbour count and the current cell, then write the new value into the
accumulated next grid by the rules of the source. -/
def stepCell (wld : World) (toroidal : Bool) (acc2 : Grid) (x y : Nat) : Option Grid :=
  (wld.count_neighbours (x : Int) (y : Int) toroidal).bind (fun num =>
    (wld.get_state.get x y).bind (fun c =>
      if c = Cell.alive then
        if num < 2 ∨ num > 3 then acc2.set x y Cell.dead
        else acc2.set x y Cell.alive
      else
        if num = 3 then acc2.set x y Cell.alive
        else acc2.set x y Cell.dead))

/-- World::step(toroidal): for every cell of the current grid compute the
neighbour count and write the new value into the next grid, then swap the
two grids.  none models an exception escaping from Grid::set (or get). -/
def World.step (wld : World) (toroidal : Bool) : Option World :=
  ((List.range wld.get_height).foldlM (fun acc (y : Nat) =>
    (List.range wld.get_width).foldlM (fun acc2 (x : Nat) =>
      stepCell wld toroidal acc2 x y) acc) wld.nextGrid).map
    (fun ng => ⟨ng, wld.currentGrid⟩)

/-- One iteration of the inner copy loop of Grid::crop: write the source
cell into the next output slot, then advance newX, wrapping it to 0 at the
end of a row exactly as the source does. -/
def cropRowStep (src : List Cell) (srcW newW newY y : Nat)
    (st : List Cell × Nat) (x : Nat) : List Cell × Nat :=
  (st.1.set (st.2 + newW * newY) (src.getD (x + srcW * y) Cell.dead),
   if st.2 = newW - 1 then 0 else st.2 + 1)

/-- Grid::crop(x0, y0, x1, y1): throws (none) when the window is malformed
or reaches outside the grid, else copies the half-open box into a new grid,
tracking newX and newY exactly as the source does. -/
def Grid.crop (g : Grid) (x0 y0 x1 y1 : Nat) : Option Grid :=
  if x0 > g.width ∨ x1 > g.width ∨ y0 > g.height ∨ y1 > g.height ∨
      x0 > x1 ∨ y0 > y1 then none
  else
    let newWidth := x1 - x0
    let newHeight := y1 - y0
    let base := List.replicate (newWidth * newHeight) Cell.dead
    let result := (List.range' y0 (y1 - y0)).foldl
      (fun (st : List Cell × Nat × Nat) y =>
        let inner := (List.range' x0 (x1 - x0)).foldl
          (cropRowStep g.cells g.width newWidth st.2.2 y) (st.1, st.2.1)
        (inner.1, inner.2, st.2.2 + 1)) (base, 0, 0)
    some ⟨newWidth, newHeight, result.1⟩

/-- Abstract input to Zoo::load_ascii: whether the file opens, the two
header integers parsed by operator>>, and the sequence of lines returned by
successive getline calls after the header parse (the first element is the
remainder of the header line). -/
structure AsciiInput where
  canOpen : Bool
  width : Int
  height : Int
  lines : List (List Char)
deriving DecidableEq, Repr

/-- Character loop of Zoo::load_ascii over one line: a hash sets the cell
ALIVE, a space sets it DEAD, anything else throws; Grid::set itself throws
when x runs past the grid width. -/
def processChars : Grid → Nat → Nat → List Char → Option Grid
  | g, _, _, [] => some g
  | g, y, x, c :: cs =>
    if c = '#' then (g.set x y Cell.alive).bind (fun g2 => processChars g2 y (x + 1) cs)
    else if c = ' ' then (g.set x y Cell.dead).bind (fun g2 => processChars g2 y (x + 1) cs)
    else none

/-- Line loop of Zoo::load_ascii: consume lines while y < height; a line of
wrong length throws only when y > 0; y advances only after a line of length
exactly width. -/
def loadLines : Nat → Grid → Nat → List (List Char) → Option Grid
  | _, g, _, [] => some g
  | h, g, y, line :: rest =>
    if y < h then
      if line.length ≠ g.width ∧ y > 0 then none
      else (processChars g y 0 line).bind (fun g2 =>
        loadLines h g2 (if line.length = g.width then y + 1 else y) rest)
    else some g

/-- Zoo::load_ascii: fail when the file does not open or a parsed dimension
is negative, then run the line loop on a fresh width x height grid. -/
def Zoo.load_ascii (inp : AsciiInput) : Option Grid :=
  if inp.canOpen = false then none
  else if inp.width < 0 ∨ inp.height < 0 then none
  else
    loadLines inp.height.toNat
      (Grid.ofSize inp.width.toNat inp.height.toNat) 0 inp.lines

/-- Abstract binary grid file: the two 4-byte header integers and the data
bytes that follow them. -/
structure BinFile where
  width : Nat
  height : Nat
  data : List Nat
deriving DecidableEq, Repr

/-- Value-initialised std::bitset of 500 bits holding the binary
representation of v (as both codecs construct it before clearing). -/
def bitsetOf (v : Nat) : Nat → Bool := fun i => Nat.testBit (u32 v) i

/-- Read of std::bitset operator[]: out of range (i >= 500) is undefined
behaviour in the source, modelled as a failure. -/
def bsGet (bs : Nat → Bool) (i : Nat) : Option Bool :=
  if i < 500 then some (bs i) else none

/-- Write of std::bitset operator[]: out of range (i >= 500) is undefined
behaviour in the source, modelled as a failure. -/
def bsSet (bs : Nat → Bool) (i : Nat) (v : Bool) : Option (Nat → Bool) :=
  if i < 500 then some (fun j => if j = i then v else bs j) else none

/-- Clearing loop both codecs run after constructing the bitset: set bits
0 .. n-1 to false. -/
def clearBits (bs : Nat → Bool) (n : Nat) : Option (Nat → Bool) :=
  (List.range n).foldlM (fun b i => bsSet b i false) bs

/-- Packing loop of Zoo::save_binary: starting at bit i, combine each group
of 8 bits into one byte (LSB first) until i reaches total. -/
def packBytes (bs : Nat → Bool) (total : Nat) (i : Nat) : Option (List Nat) :=
  if i < total then
    (bsGet bs i).bind fun b0 =>
    (bsGet bs (i + 1)).bind fun b1 =>
    (bsGet bs (i + 2)).bind fun b2 =>
    (bsGet bs (i + 3)).bind fun b3 =>
    (bsGet bs (i + 4)).bind fun b4 =>
    (bsGet bs (i + 5)).bind fun b5 =>
    (bsGet bs (i + 6)).bind fun b6 =>
    (bsGet bs (i + 7)).bind fun b7 =>
    (packBytes bs total (i + 8)).bind fun rest =>
    some ((b0.toNat * 1 + b1.toNat * 2 + b2.toNat * 4 + b3.toNat * 8 +
           b4.toNat * 16 + b5.toNat * 32 + b6.toNat * 64 + b7.toNat * 128) :: rest)
  else some []
termination_by total - i
decreasing_by omega

/-- Zoo::save_binary: mark the bit of every ALIVE cell in a 500-bit scratch
bitset, then pack the first width*height bits into bytes. -/
def Zoo.save_binary (g : Grid) : Option BinFile :=
  let w := g.width
  let h := g.height
  let wh := u32 (w * h)
  (clearBits (bitsetOf wh) wh).bind fun bs1 =>
  ((List.range h).foldlM (fun bs (y : Nat) =>
    (List.range w).foldlM (fun bs2 (x : Nat) =>
      (g.get x y).bind (fun c =>
        if c = Cell.alive then bsSet bs2 (u32 (g.get_index x y)) true
        else some bs2)) bs) bs1).bind fun bs2 =>
  (packBytes bs2 wh 0).map (fun bytes => ⟨u32 w, u32 h, bytes⟩)

/-- Per-byte loop of Zoo::load_binary: for each of the 8 bits of the byte
(LSB first), set the bitset bit at the running index when the bit is 1; the
index advances for every bit, including padding bits. -/
def readByteBits (st : (Nat → Bool) × Nat) (byte : Nat) : Option ((Nat → Bool) × Nat) :=
  (List.range 8).foldlM (fun st2 (k : Nat) =>
    if (byte >>> k) &&& 1 = 1 then
      (bsSet st2.1 st2.2 true).map (fun bs => (bs, st2.2 + 1))
    else some (st2.1, st2.2 + 1)) st

/-- Zoo::load_binary: read the header, unpack the data bytes into the
bitset, fail when fewer than width*height bits were supplied, then set the
ALIVE cells of a fresh grid from the bitset. -/
def Zoo.load_binary (f : BinFile) : Option Grid :=
  let w := f.width
  let h := f.height
  let wh := u32 (w * h)
  (clearBits (bitsetOf wh) wh).bind fun bs1 =>
  (f.data.foldlM readByteBits (bs1, 0)).bind fun st =>
  if st.2 < wh then none
  else
    (List.range h).foldlM (fun g2 (y : Nat) =>
      (List.range w).foldlM (fun g3 (x : Nat) =>
        (bsGet st.1 (u32 ((w * y) + x))).bind (fun b =>
          if b = true then g3.set x y Cell.alive else some g3)) g2) (Grid.ofSize w h)

deriving instance DecidableEq for Except

/-- Standard Game of Life rule as the specification states it: a live cell
survives iff the neighbour count is 2 or 3, a dead cell becomes alive iff it
is exactly 3. -/
def golRule (c : Cell) (n : Nat) : Cell :=
  if c = Cell.alive then
    if n = 2 ∨ n = 3 then Cell.alive else Cell.dead
  else
    if n = 3 then Cell.alive else Cell.dead

/-- The eight neighbour offsets of a cell. -/
def offsets8 : List (Int × Int) :=
  [(-1, -1), (0, -1), (1, -1), (-1, 0), (1, 0), (-1, 1), (0, 1), (1, 1)]

/-- Specification-side predicate: the cell at the torus wrap of (i, j),
each coordinate reduced modulo its dimension, is ALIVE. -/
def Grid.aliveWrapped (g : Grid) (i j : Int) : Bool :=
  decide (g.get (Int.toNat (i % (g.width : Int))) (Int.toNat (j % (g.height : Int)))
    = some Cell.alive)

/-- Specification-side toroidal neighbour count: how many of the eight
wrapped neighbour positions hold an ALIVE cell (counted with multiplicity,
as the 3x3 loop of the source does). -/
def Grid.wrapCount (g : Grid) (x y : Int) : Nat :=
  (offsets8.map (fun d => if g.aliveWrapped (x + d.1) (y + d.2) then 1 else 0)).sum

/-- Specification-side predicate: (i, j) lies inside the grid and holds an
ALIVE cell. -/
def Grid.aliveInside (g : Grid) (i j : Int) : Bool :=
  decide (0 ≤ i ∧ i < (g.width : Int) ∧ 0 ≤ j ∧ j < (g.height : Int) ∧
    g.get i.toNat j.toNat = some Cell.alive)

/-- Specification-side bounded neighbour count: how many of the eight
neighbour positions lie inside the grid and hold an ALIVE cell; positions
outside the grid are treated as DEAD and skipped. -/
def Grid.boundedCount (g : Grid) (x y : Int) : Nat :=
  (offsets8.map (fun d => if g.aliveInside (x + d.1) (y + d.2) then 1 else 0)).sum

lemma reduceTurns_eq_emod (k : Int) : reduceTurns k = k % 4 := by
  unfold reduceTurns
  cases k with
  | ofNat n =>
    have h1 : Int.tmod (Int.ofNat n) 4 = Int.ofNat (n % 4) := rfl
    rw [h1]
    have h2 : (Int.ofNat (n % 4) + 4) = Int.ofNat (n % 4 + 4) := by
      simp [Int.ofNat_eq_coe]
    rw [h2]
    have h3 : (Int.natAbs (Int.ofNat (n % 4 + 4)) : Int) = Int.ofNat (n % 4 + 4) := rfl
    rw [h3]
    have h4 : Int.tmod (Int.ofNat (n % 4 + 4)) 4 = Int.ofNat ((n % 4 + 4) % 4) := rfl
    rw [h4]
    have h5 : (n % 4 + 4) % 4 = n % 4 := by omega
    rw [h5]
    rw [Int.ofNat_eq_coe, Int.ofNat_eq_coe]
    omega
  | negSucc n =>
    have h1 : Int.tmod (Int.negSucc n) 4 = -Int.ofNat ((n + 1) % 4) := rfl
    rw [h1]
    have h2 : (-Int.ofNat ((n + 1) % 4) + 4) = Int.ofNat (4 - (n + 1) % 4) := by
      rw [Int.ofNat_eq_coe, Int.ofNat_eq_coe]
      omega
    rw [h2]
    have h3 : (Int.natAbs (Int.ofNat (4 - (n + 1) % 4)) : Int)
        = Int.ofNat (4 - (n + 1) % 4) := rfl
    rw [h3]
    have h4 : Int.tmod (Int.ofNat (4 - (n + 1) % 4)) 4
        = Int.ofNat ((4 - (n + 1) % 4) % 4) := rfl
    rw [h4]
    have h5 : Int.negSucc n = -((n : Int) + 1) := by simp [Int.negSucc_eq]
    rw [h5, Int.ofNat_eq_coe]
    omega

/-- Claim C7: rotate(k) and rotate(k+4) produce bit-identical result grids
for every integer k, and rotate(k) for any k congruent to 0 modulo 4 returns
a grid identical in dimensions and content to the original. -/
theorem rotate_mod4_equiv (g : Grid) (k : Int) :
    g.rotate k = g.rotate (k + 4) ∧ (k % 4 = 0 → g.rotate k = some g) := by
  have h1 : reduceTurns (k + 4) = reduceTurns k := by
    rw [reduceTurns_eq_emod, reduceTurns_eq_emod]
    omega
  constructor
  · unfold Grid.rotate
    rw [h1]
  · intro hk
    have h0 : reduceTurns k = 0 := by
      rw [reduceTurns_eq_emod]
      omega
    unfold Grid.rotate
    rw [h0]
    norm_num

/-- Witness for C7 at k = -4 on a concrete 1x3 grid. -/
theorem rotate_mod4_equiv_witness :
    (⟨1, 3, [Cell.alive, Cell.dead, Cell.alive]⟩ : Grid).rotate (-4)
      = some ⟨1, 3, [Cell.alive, Cell.dead, Cell.alive]⟩ :=
  (rotate_mod4_equiv ⟨1, 3, [Cell.alive, Cell.dead, Cell.alive]⟩ (-4)).2 (by decide)

/-- Claim C4 (failing evaluation): on the 1x3 grid whose single ALIVE cell
is at (0, 2), the 90-degree branch of rotate computes an offset that
underflows to 2^32 - 1 (an out-of-range vector read) and drops the ALIVE
cell, so four applications of rotate(1) yield the all-DEAD 1x3 grid instead
of the original. -/
theorem rotate_four_times_1x3_drops_cell :
    ((((⟨1, 3, [Cell.dead, Cell.dead, Cell.alive]⟩ : Grid).rotate 1).bind
      (fun g => g.rotate 1)).bind (fun g => g.rotate 1)).bind (fun g => g.rotate 1)
      = some ⟨1, 3, [Cell.dead, Cell.dead, Cell.dead]⟩ ∧
    (⟨1, 3, [Cell.dead, Cell.dead, Cell.dead]⟩ : Grid)
      ≠ ⟨1, 3, [Cell.dead, Cell.dead, Cell.alive]⟩ := by
  constructor
  · decide
  · decide

/-- Claim C3 (failing evaluation): resizing the 1x3 grid whose ALIVE cell is
at (0, 1) to a 2x2 square loses that cell from the overlap rectangle: the
square overload swaps the copy-loop bounds, so the resized grid holds DEAD
at (0, 1) and the ALIVE value ends up at (1, 0) instead. -/
theorem resize_square_moves_kept_cell :
    ((⟨1, 3, [Cell.dead, Cell.alive, Cell.dead]⟩ : Grid).resize_square 2).get 0 1
      = some Cell.dead ∧
    (⟨1, 3, [Cell.dead, Cell.alive, Cell.dead]⟩ : Grid).get 0 1 = some Cell.alive ∧
    ((⟨1, 3, [Cell.dead, Cell.alive, Cell.dead]⟩ : Grid).resize_square 2).get 1 0
      = some Cell.alive := by
  refine ⟨by decide, by decide, by decide⟩

/-- Claim C5 (failing evaluation): merging a 2x2 all-ALIVE grid into a 4x4
all-DEAD grid at x0 = 3 passes the up-front check of merge (which compares
areas, not extents), then Grid::set throws at x = 4 after the write at
(3, 0) already landed: the target grid is left partially mutated. -/
theorem merge_partial_mutation_on_overflow :
    Grid.merge (Grid.ofSize 4 4)
      ⟨2, 2, [Cell.alive, Cell.alive, Cell.alive, Cell.alive]⟩ 3 0 false
      = Except.error ⟨4, 4, [Cell.dead, Cell.dead, Cell.dead, Cell.alive,
          Cell.dead, Cell.dead, Cell.dead, Cell.dead,
          Cell.dead, Cell.dead, Cell.dead, Cell.dead,
          Cell.dead, Cell.dead, Cell.dead, Cell.dead]⟩ ∧
    (⟨4, 4, [Cell.dead, Cell.dead, Cell.dead, Cell.alive,
        Cell.dead, Cell.dead, Cell.dead, Cell.dead,
        Cell.dead, Cell.dead, Cell.dead, Cell.dead,
        Cell.dead, Cell.dead, Cell.dead, Cell.dead]⟩ : Grid) ≠ Grid.ofSize 4 4 := by
  refine ⟨by decide, by decide⟩

/-- Counterexample to C10 as stated: resizing a 1x1 world to width 0 and
height 2 makes the height strictly larger, yet the immediately following
step succeeds (the loop body never runs because the new width is 0) and
swaps the buffers instead of throwing. -/
theorem resize_zero_width_then_step_succeeds :
    ((⟨⟨1, 1, [Cell.dead]⟩, ⟨1, 1, [Cell.dead]⟩⟩ : World).resize_wh 0 2).step false
      = some ⟨⟨1, 1, [Cell.dead]⟩, ⟨0, 2, []⟩⟩ ∧
    ((⟨⟨1, 1, [Cell.dead]⟩, ⟨1, 1, [Cell.dead]⟩⟩ : World).resize_wh 0 2).get_height
      > (⟨⟨1, 1, [Cell.dead]⟩, ⟨1, 1, [Cell.dead]⟩⟩ : World).get_height := by
  refine ⟨by decide, by decide⟩

lemma Grid.get_eq_of_lt (g : Grid) (x y : Nat) (hx : x < g.width) (hy : y < g.height) :
    g.get x y = some (g.cells.getD (g.width * y + x) Cell.dead) := by
  unfold Grid.get Grid.get_index
  rw [if_neg (by omega)]

lemma Grid.set_eq_of_lt (g : Grid) (x y : Nat) (v : Cell)
    (hx : x < g.width) (hy : y < g.height) :
    g.set x y v = some { g with cells := g.cells.set (g.width * y + x) v } := by
  unfold Grid.set Grid.get_index
  rw [if_neg (by omega)]

lemma Grid.set_none_of_oob (g : Grid) (x y : Nat) (v : Cell)
    (h : x ≥ g.width ∨ y ≥ g.height) : g.set x y v = none := by
  unfold Grid.set
  rw [if_pos h]

lemma countIf_get (g : Grid) (a b : Nat) (ha : a < g.width) (hb : b < g.height) :
    countIf (g.get a b) = some (if g.get a b = some Cell.alive then 1 else 0) := by
  rw [Grid.get_eq_of_lt g a b ha hb]
  unfold countIf
  cases g.cells.getD (g.width * b + a) Cell.dead <;> simp

lemma emod_neg_one (W : Nat) (hW : 0 < W) : (-1 : Int) % (W : Int) = (W : Int) - 1 := by
  have h1 : ((-1 : Int) + (W : Int) * 1) % (W : Int) = (-1 : Int) % (W : Int) :=
    Int.add_mul_emod_self_left (-1) (W : Int) 1
  rw [mul_one] at h1
  have h2 : (-1 : Int) + (W : Int) = (W : Int) - 1 := by omega
  rw [← h1, h2, Int.emod_eq_of_lt (by omega) (by omega)]

lemma contribToroidal_center (wld : World) (x y : Int) :
    wld.neighbourContribToroidal x y x y = some 0 := by
  unfold World.neighbourContribToroidal
  rw [if_pos ⟨rfl, rfl⟩]

lemma contribBounded_center (wld : World) (x y : Int) :
    wld.neighbourContribBounded x y x y = some 0 := by
  unfold World.neighbourContribBounded
  rw [if_pos ⟨rfl, rfl⟩]

lemma contribBounded_eq (wld : World) (x y i j : Int) (hne : ¬(i = x ∧ j = y)) :
    wld.neighbourContribBounded x y i j
      = some (if wld.currentGrid.aliveInside i j then 1 else 0) := by
  unfold World.neighbourContribBounded
  simp only [World.get_state, World.get_width, World.get_height]
  rw [if_neg hne]
  by_cases hin : 0 ≤ i ∧ i < (wld.currentGrid.width : Int) ∧ 0 ≤ j ∧
      j < (wld.currentGrid.height : Int)
  · rw [if_pos hin]
    obtain ⟨h1, h2, h3, h4⟩ := hin
    rw [countIf_get _ _ _ (by omega) (by omega)]
    congr 1
    by_cases hget : wld.currentGrid.get i.toNat j.toNat = some Cell.alive
    · simp [Grid.aliveInside, hget, h1, h2, h3, h4]
    · simp [Grid.aliveInside, hget]
  · rw [if_neg hin]
    have hfalse : wld.currentGrid.aliveInside i j = false := by
      unfold Grid.aliveInside
      simp only [decide_eq_false_iff_not]
      intro hc
      exact hin ⟨hc.1, hc.2.1, hc.2.2.1, hc.2.2.2.1⟩
    rw [hfalse]
    simp

lemma contribToroidal_eq (wld : World) (x y i j : Int)
    (hW : 0 < wld.currentGrid.width) (hH : 0 < wld.currentGrid.height)
    (hx1 : 0 ≤ x) (hx2 : x < (wld.currentGrid.width : Int))
    (hy1 : 0 ≤ y) (hy2 : y < (wld.currentGrid.height : Int))
    (hi1 : x - 1 ≤ i) (hi2 : i ≤ x + 1) (hj1 : y - 1 ≤ j) (hj2 : j ≤ y + 1)
    (hne : ¬(i = x ∧ j = y)) :
    wld.neighbourContribToroidal x y i j
      = some (if wld.currentGrid.aliveWrapped i j then 1 else 0) := by
  have key : ∀ a b : Nat, a < wld.currentGrid.width → b < wld.currentGrid.height →
      (i % (wld.currentGrid.width : Int)).toNat = a →
      (j % (wld.currentGrid.height : Int)).toNat = b →
      countIf (wld.currentGrid.get a b)
        = some (if wld.currentGrid.aliveWrapped i j then 1 else 0) := by
    intro a b ha hb hia hjb
    rw [countIf_get _ _ _ ha hb]
    congr 1
    unfold Grid.aliveWrapped
    rw [hia, hjb]
    by_cases hget : wld.currentGrid.get a b = some Cell.alive
    · simp [hget]
    · simp [hget]
  have hmodi : (i % (wld.currentGrid.width : Int)).toNat
      = (if i < 0 then wld.currentGrid.width - 1
         else if i ≥ (wld.currentGrid.width : Int) then 0 else i.toNat) := by
    by_cases hil : i < 0
    · have hieq : i = -1 := by omega
      have hm := emod_neg_one wld.currentGrid.width hW
      rw [if_pos hil, hieq, hm]
      omega
    · by_cases hih : i ≥ (wld.currentGrid.width : Int)
      · have hieq : i = (wld.currentGrid.width : Int) := by omega
        rw [if_neg hil, if_pos hih, hieq, Int.emod_self]
        rfl
      · rw [if_neg hil, if_neg hih, Int.emod_eq_of_lt (by omega) (by omega)]
  have hmodj : (j % (wld.currentGrid.height : Int)).toNat
      = (if j < 0 then wld.currentGrid.height - 1
         else if j ≥ (wld.currentGrid.height : Int) then 0 else j.toNat) := by
    by_cases hjl : j < 0
    · have hjeq : j = -1 := by omega
      have hm := emod_neg_one wld.currentGrid.height hH
      rw [if_pos hjl, hjeq, hm]
      omega
    · by_cases hjh : j ≥ (wld.currentGrid.height : Int)
      · have hjeq : j = (wld.currentGrid.height : Int) := by omega
        rw [if_neg hjl, if_pos hjh, hjeq, Int.emod_self]
        rfl
      · rw [if_neg hjl, if_neg hjh, Int.emod_eq_of_lt (by omega) (by omega)]
  unfold World.neighbourContribToroidal
  simp only [World.get_state, World.get_width, World.get_height]
  rw [if_neg hne]
  by_cases hil : i < 0
  · rw [if_pos hil]
    rw [if_pos hil] at hmodi
    by_cases hjl : j < 0
    · rw [if_pos hjl]
      rw [if_pos hjl] at hmodj
      exact key _ _ (by omega) (by omega) hmodi hmodj
    · rw [if_neg hjl]
      rw [if_neg hjl] at hmodj
      by_cases hjh : j ≥ (wld.currentGrid.height : Int)
      · rw [if_pos hjh]
        rw [if_pos hjh] at hmodj
        exact key _ _ (by omega) (by omega) hmodi hmodj
      · rw [if_neg hjh]
        rw [if_neg hjh] at hmodj
        exact key _ _ (by omega) (by omega) hmodi hmodj
  · rw [if_neg hil]
    rw [if_neg hil] at hmodi
    by_cases hih : i ≥ (wld.currentGrid.width : Int)
    · rw [if_pos hih]
      rw [if_pos hih] at hmodi
      by_cases hjl : j < 0
      · rw [if_pos hjl]
        rw [if_pos hjl] at hmodj
        exact key _ _ (by omega) (by omega) hmodi hmodj
      · rw [if_neg hjl]
        rw [if_neg hjl] at hmodj
        by_cases hjh : j ≥ (wld.currentGrid.height : Int)
        · rw [if_pos hjh]
          rw [if_pos hjh] at hmodj
          exact key _ _ (by omega) (by omega) hmodi hmodj
        · rw [if_neg hjh]
          rw [if_neg hjh] at hmodj
          exact key _ _ (by omega) (by omega) hmodi hmodj
    · rw [if_neg hih]
      rw [if_neg hih] at hmodi
      by_cases hjl : j < 0
      · rw [if_pos hjl]
        rw [if_pos hjl] at hmodj
        exact key _ _ (by omega) (by omega) hmodi hmodj
      · rw [if_neg hjl]
        rw [if_neg hjl] at hmodj
        by_cases hjh : j ≥ (wld.currentGrid.height : Int)
        · rw [if_pos hjh]
          rw [if_pos hjh] at hmodj
          exact key _ _ (by omega) (by omega) hmodi hmodj
        · rw [if_neg hjh]
          rw [if_neg hjh] at hmodj
          rw [if_pos (by omega : 0 ≤ i ∧ i < (wld.currentGrid.width : Int) ∧
            0 ≤ j ∧ j < (wld.currentGrid.height : Int))]
          exact key _ _ (by omega) (by omega) hmodi hmodj

lemma count_toroidal_eq (wld : World) (x y : Int)
    (hW : 0 < wld.currentGrid.width) (hH : 0 < wld.currentGrid.height)
    (hx1 : 0 ≤ x) (hx2 : x < (wld.currentGrid.width : Int))
    (hy1 : 0 ≤ y) (hy2 : y < (wld.currentGrid.height : Int)) :
    wld.count_neighbours x y true = some (wld.currentGrid.wrapCount x y) := by
  have hmm : ∀ i j : Int, x - 1 ≤ i → i ≤ x + 1 → y - 1 ≤ j → j ≤ y + 1 →
      ¬(i = x ∧ j = y) → wld.neighbourContribToroidal x y i j
        = some (if wld.currentGrid.aliveWrapped i j then 1 else 0) := fun i j a b c d e =>
    contribToroidal_eq wld x y i j hW hH hx1 hx2 hy1 hy2 a b c d e
  have e1 := hmm (x - 1) (y - 1) (by omega) (by omega) (by omega) (by omega) (by omega)
  have e2 := hmm x (y - 1) (by omega) (by omega) (by omega) (by omega) (by omega)
  have e3 := hmm (x + 1) (y - 1) (by omega) (by omega) (by omega) (by omega) (by omega)
  have e4 := hmm (x - 1) y (by omega) (by omega) (by omega) (by omega) (by omega)
  have e5 := hmm (x + 1) y (by omega) (by omega) (by omega) (by omega) (by omega)
  have e6 := hmm (x - 1) (y + 1) (by omega) (by omega) (by omega) (by omega) (by omega)
  have e7 := hmm x (y + 1) (by omega) (by omega) (by omega) (by omega) (by omega)
  have e8 := hmm (x + 1) (y + 1) (by omega) (by omega) (by omega) (by omega) (by omega)
  have ec := contribToroidal_center wld x y
  have a1 : x + (-1 : Int) = x - 1 := by ring
  have a2 : y + (-1 : Int) = y - 1 := by ring
  unfold World.count_neighbours
  rw [if_neg (by simp)]
  simp only [List.foldlM_cons, List.foldlM_nil, e1, e2, e3, e4, e5, e6, e7, e8, ec,
    Option.bind_eq_bind, Option.some_bind, Option.map_some', Option.pure_def,
    Grid.wrapCount, offsets8, List.map_cons, List.map_nil, List.sum_cons, List.sum_nil,
    a1, a2, add_zero, Option.some.injEq]
  omega

lemma count_bounded_eq (wld : World) (x y : Int) :
    wld.count_neighbours x y false = some (wld.currentGrid.boundedCount x y) := by
  have hmm : ∀ i j : Int, ¬(i = x ∧ j = y) → wld.neighbourContribBounded x y i j
      = some (if wld.currentGrid.aliveInside i j then 1 else 0) := fun i j e =>
    contribBounded_eq wld x y i j e
  have e1 := hmm (x - 1) (y - 1) (by omega)
  have e2 := hmm x (y - 1) (by omega)
  have e3 := hmm (x + 1) (y - 1) (by omega)
  have e4 := hmm (x - 1) y (by omega)
  have e5 := hmm (x + 1) y (by omega)
  have e6 := hmm (x - 1) (y + 1) (by omega)
  have e7 := hmm x (y + 1) (by omega)
  have e8 := hmm (x + 1) (y + 1) (by omega)
  have ec := contribBounded_center wld x y
  have a1 : x + (-1 : Int) = x - 1 := by ring
  have a2 : y + (-1 : Int) = y - 1 := by ring
  unfold World.count_neighbours
  rw [if_pos rfl]
  simp only [List.foldlM_cons, List.foldlM_nil, e1, e2, e3, e4, e5, e6, e7, e8, ec,
    Option.bind_eq_bind, Option.some_bind, Option.map_some', Option.pure_def,
    Grid.boundedCount, offsets8, List.map_cons, List.map_nil, List.sum_cons, List.sum_nil,
    a1, a2, add_zero, Option.some.injEq]
  omega

lemma indicatorSum_le {α : Type} (l : List α) (p : α → Bool) :
    (l.map (fun d => if p d then 1 else 0)).sum ≤ l.length := by
  induction l with
  | nil => simp
  | cons a t ih =>
    simp only [List.map_cons, List.sum_cons, List.length_cons]
    split <;> omega

lemma wrapCount_le_8 (g : Grid) (x y : Int) : g.wrapCount x y ≤ 8 :=
  indicatorSum_le offsets8 (fun d => g.aliveWrapped (x + d.1) (y + d.2))

/-- Claim C2: with toroidal=true, count_neighbours returns the number of
ALIVE cells among the 8 positions ((x+dx) mod width, (y+dy) mod height),
each out-of-range coordinate wrapping modulo its dimension (corners on both
axes), and the result is between 0 and 8; with toroidal=false, out-of-range
neighbours are treated as DEAD and skipped. -/
theorem count_neighbours_spec (wld : World) (x y : Int)
    (hW : 0 < wld.get_width) (hH : 0 < wld.get_height)
    (hx1 : 0 ≤ x) (hx2 : x < (wld.get_width : Int))
    (hy1 : 0 ≤ y) (hy2 : y < (wld.get_height : Int)) :
    wld.count_neighbours x y true = some (wld.get_state.wrapCount x y) ∧
    wld.get_state.wrapCount x y ≤ 8 ∧
    wld.count_neighbours x y false = some (wld.get_state.boundedCount x y) :=
  ⟨count_toroidal_eq wld x y hW hH hx1 hx2 hy1 hy2,
   wrapCount_le_8 _ x y,
   count_bounded_eq wld x y⟩

/-- Witness for C2 on a concrete 2x1 world at cell (0, 0). -/
theorem count_neighbours_spec_witness :
    (⟨⟨2, 1, [Cell.alive, Cell.dead]⟩, Grid.ofSize 2 1⟩ : World).count_neighbours 0 0 true
      = some ((⟨⟨2, 1, [Cell.alive, Cell.dead]⟩, Grid.ofSize 2 1⟩ : World).get_state.wrapCount 0 0) ∧
    (⟨⟨2, 1, [Cell.alive, Cell.dead]⟩, Grid.ofSize 2 1⟩ : World).get_state.wrapCount 0 0 ≤ 8 ∧
    (⟨⟨2, 1, [Cell.alive, Cell.dead]⟩, Grid.ofSize 2 1⟩ : World).count_neighbours 0 0 false
      = some ((⟨⟨2, 1, [Cell.alive, Cell.dead]⟩, Grid.ofSize 2 1⟩ : World).get_state.boundedCount 0 0) :=
  count_neighbours_spec _ 0 0 (by decide) (by decide) (by decide) (by decide)
    (by decide) (by decide)

/-- New value the step loop computes for cell (p, q): the Game of Life rule
applied to the current cell and its specification-side neighbour count. -/
def newCellVal (wld : World) (t : Bool) (p q : Nat) : Cell :=
  golRule (wld.currentGrid.cells.getD (wld.currentGrid.width * q + p) Cell.dead)
    (if t then wld.currentGrid.wrapCount (p : Int) (q : Int)
     else wld.currentGrid.boundedCount (p : Int) (q : Int))

lemma getD_set_self {α : Type} (l : List α) (i : Nat) (a d : α) (h : i < l.length) :
    (l.set i a).getD i d = a := by
  simp [List.getD_eq_getElem?_getD, List.getElem?_set, h]

lemma getD_set_other {α : Type} (l : List α) (i j : Nat) (a d : α) (h : i ≠ j) :
    (l.set i a).getD j d = l.getD j d := by
  simp [List.getD_eq_getElem?_getD, List.getElem?_set, h]

lemma count_some (wld : World) (t : Bool) (x y : Nat)
    (hx : x < wld.currentGrid.width) (hy : y < wld.currentGrid.height) :
    wld.count_neighbours (x : Int) (y : Int) t
      = some (if t then wld.currentGrid.wrapCount (x : Int) (y : Int)
              else wld.currentGrid.boundedCount (x : Int) (y : Int)) := by
  cases t
  · simpa using count_bounded_eq wld (x : Int) (y : Int)
  · simpa using count_toroidal_eq wld (x : Int) (y : Int) (by omega) (by omega)
      (by omega) (by omega) (by omega) (by omega)

lemma stepCell_some (wld : World) (t : Bool) (acc : Grid) (x y : Nat)
    (hx : x < wld.currentGrid.width) (hy : y < wld.currentGrid.height)
    (hxa : x < acc.width) (hya : y < acc.height) :
    stepCell wld t acc x y
      = some { acc with cells := acc.cells.set (acc.width * y + x) (newCellVal wld t x y) } := by
  unfold stepCell
  rw [count_some wld t x y hx hy]
  unfold World.get_state
  rw [Grid.get_eq_of_lt _ _ _ hx hy]
  simp only [Option.some_bind]
  have hset : ∀ v, acc.set x y v
      = some { acc with cells := acc.cells.set (acc.width * y + x) v } := fun v =>
    Grid.set_eq_of_lt acc x y v hxa hya
  set n := (if t then wld.currentGrid.wrapCount (x : Int) (y : Int)
            else wld.currentGrid.boundedCount (x : Int) (y : Int)) with hn
  cases hc : wld.currentGrid.cells.getD (wld.currentGrid.width * y + x) Cell.dead
  · rw [if_neg (by simp)]
    unfold newCellVal
    rw [← hn, hc]
    by_cases h3 : n = 3
    · rw [if_pos h3, hset]
      unfold golRule
      rw [if_neg (by simp), if_pos h3]
    · rw [if_neg h3, hset]
      unfold golRule
      rw [if_neg (by simp), if_neg h3]
  · rw [if_pos rfl]
    unfold newCellVal
    rw [← hn, hc]
    by_cases hd : n < 2 ∨ n > 3
    · rw [if_pos hd, hset]
      unfold golRule
      rw [if_pos rfl, if_neg (by omega)]
    · rw [if_neg hd, hset]
      unfold golRule
      rw [if_pos rfl, if_pos (by omega)]

lemma stepCell_none (wld : World) (t : Bool) (acc : Grid) (x y : Nat)
    (hx : x < wld.currentGrid.width) (hy : y < wld.currentGrid.height)
    (hoob : x ≥ acc.width ∨ y ≥ acc.height) :
    stepCell wld t acc x y = none := by
  unfold stepCell
  rw [count_some wld t x y hx hy]
  unfold World.get_state
  rw [Grid.get_eq_of_lt _ _ _ hx hy]
  simp only [Option.some_bind]
  have hset : ∀ v, acc.set x y v = none := fun v => Grid.set_none_of_oob acc x y v hoob
  simp [hset]

lemma rowmajor_inj (W p q x0 y : Nat) (hp : p < W) (hx : x0 < W)
    (heq : W * q + p = W * y + x0) : q = y ∧ p = x0 := by
  have hqy : q = y := by
    by_contra hne
    rcases Nat.lt_or_ge q y with h | h
    · have h1 : W * (q + 1) ≤ W * y := Nat.mul_le_mul (Nat.le_refl W) (by omega)
      have h2 : W * (q + 1) = W * q + W := by ring
      omega
    · have h3 : y < q := by omega
      have h1 : W * (y + 1) ≤ W * q := Nat.mul_le_mul (Nat.le_refl W) (by omega)
      have h2 : W * (y + 1) = W * y + W := by ring
      omega
  subst hqy
  omega

lemma rowmajor_lt (W H p q : Nat) (hp : p < W) (hq : q < H) : W * q + p < W * H := by
  have h1 : W * (q + 1) ≤ W * H := Nat.mul_le_mul (Nat.le_refl W) (by omega)
  have h2 : W * (q + 1) = W * q + W := by ring
  omega

lemma step_inner_char (wld : World) (t : Bool) (y : Nat)
    (hy : y < wld.currentGrid.height) :
    ∀ (xs : List Nat) (acc : Grid), (∀ x ∈ xs, x < wld.currentGrid.width) →
      acc.width = wld.currentGrid.width → acc.height = wld.currentGrid.height →
      acc.cells.length = wld.currentGrid.width * wld.currentGrid.height →
      ∃ g2, (xs.foldlM (fun a2 x => stepCell wld t a2 x y) acc) = some g2 ∧
        g2.width = acc.width ∧ g2.height = acc.height ∧
        g2.cells.length = acc.cells.length ∧
        ∀ p q : Nat, p < wld.currentGrid.width → q < wld.currentGrid.height →
          g2.cells.getD (wld.currentGrid.width * q + p) Cell.dead
            = if q = y ∧ p ∈ xs then newCellVal wld t p y
              else acc.cells.getD (wld.currentGrid.width * q + p) Cell.dead := by
  intro xs
  induction xs with
  | nil =>
    intro acc hxs haw hah halen
    exact ⟨acc, rfl, rfl, rfl, rfl, by intro p q hp hq; simp⟩
  | cons x0 tail ih =>
    intro acc hxs haw hah halen
    have hx0 : x0 < wld.currentGrid.width := hxs x0 (by simp)
    have hstep := stepCell_some wld t acc x0 y hx0 hy (by omega) (by omega)
    rw [List.foldlM_cons, hstep]
    simp only [Option.bind_eq_bind, Option.some_bind]
    obtain ⟨g2, hfold, hw2, hh2, hl2, hchar⟩ :=
      ih { acc with cells := acc.cells.set (acc.width * y + x0) (newCellVal wld t x0 y) }
        (fun x hx => hxs x (by simp [hx])) haw hah (by simp [halen])
    refine ⟨g2, hfold, hw2, hh2, by simpa using hl2, ?_⟩
    intro p q hp hq
    rw [hchar p q hp hq]
    by_cases htail : q = y ∧ p ∈ tail
    · rw [if_pos htail, if_pos ⟨htail.1, by simp [htail.2]⟩]
    · rw [if_neg htail]
      simp only
      by_cases hhead : q = y ∧ p = x0
      · rw [if_pos ⟨hhead.1, by simp [hhead.2]⟩]
        have hidx : wld.currentGrid.width * q + p = acc.width * y + x0 := by
          rw [haw, hhead.1, hhead.2]
        have hlt : acc.width * y + x0 < acc.cells.length := by
          rw [halen, haw]
          exact rowmajor_lt _ _ _ _ hx0 hy
        rw [hidx, getD_set_self _ _ _ _ hlt, hhead.2]
      · have hcons : ¬(q = y ∧ p ∈ x0 :: tail) := by
          intro hc
          rcases List.mem_cons.mp hc.2 with hpe | hpt
          · exact hhead ⟨hc.1, hpe⟩
          · exact htail ⟨hc.1, hpt⟩
        rw [if_neg hcons]
        apply getD_set_other
        intro heq
        rw [haw] at heq
        have := rowmajor_inj wld.currentGrid.width x0 y p q hx0 hp heq
        exact hhead ⟨this.1.symm, this.2.symm⟩

lemma step_outer_char (wld : World) (t : Bool) :
    ∀ (ys : List Nat) (acc : Grid), (∀ y ∈ ys, y < wld.currentGrid.height) →
      acc.width = wld.currentGrid.width → acc.height = wld.currentGrid.height →
      acc.cells.length = wld.currentGrid.width * wld.currentGrid.height →
      ∃ g2, (ys.foldlM (fun a y => (List.range wld.get_width).foldlM
          (fun a2 x => stepCell wld t a2 x y) a) acc) = some g2 ∧
        g2.width = acc.width ∧ g2.height = acc.height ∧
        g2.cells.length = acc.cells.length ∧
        ∀ p q : Nat, p < wld.currentGrid.width → q < wld.currentGrid.height →
          g2.cells.getD (wld.currentGrid.width * q + p) Cell.dead
            = if q ∈ ys then newCellVal wld t p q
              else acc.cells.getD (wld.currentGrid.width * q + p) Cell.dead := by
  intro ys
  induction ys with
  | nil =>
    intro acc hys haw hah halen
    exact ⟨acc, rfl, rfl, rfl, rfl, by intro p q hp hq; simp⟩
  | cons y0 tail ih =>
    intro acc hys haw hah halen
    have hy0 : y0 < wld.currentGrid.height := hys y0 (by simp)
    obtain ⟨g1, hinner, hw1, hh1, hl1, hchar1⟩ :=
      step_inner_char wld t y0 hy0 (List.range wld.get_width) acc
        (fun x hx => by
          rw [List.mem_range] at hx
          exact hx) haw hah halen
    rw [List.foldlM_cons, hinner]
    simp only [Option.bind_eq_bind, Option.some_bind]
    obtain ⟨g2, hfold, hw2, hh2, hl2, hchar2⟩ :=
      ih g1 (fun y hy => hys y (by simp [hy])) (by omega) (by omega) (by omega)
    refine ⟨g2, hfold, by omega, by omega, by omega, ?_⟩
    intro p q hp hq
    rw [hchar2 p q hp hq, hchar1 p q hp hq]
    by_cases htail : q ∈ tail
    · rw [if_pos htail, if_pos (by simp [htail])]
    · rw [if_neg htail]
      by_cases hhead : q = y0
      · rw [if_pos ⟨hhead, by rw [List.mem_range]; exact hp⟩, if_pos (by simp [hhead])]
        rw [hhead]
      · have hnc1 : ¬(q = y0 ∧ p ∈ List.range wld.get_width) := fun hc => hhead hc.1
        have hnc2 : ¬(q ∈ y0 :: tail) := by
          intro hc
          rcases List.mem_cons.mp hc with h1 | h2
          · exact hhead h1
          · exact htail h2
        rw [if_neg hnc1, if_neg hnc2]

/-- Claim C1: for every World whose current and next grids have equal width
and height, step computes for every cell (x, y) the standard Game of Life
rule applied to the neighbour count of (x, y) in the current grid (toroidal
or bounded according to the flag), and then swaps the buffers, so get_state
returns the freshly computed generation and the stale previous generation
becomes the scratch grid. -/
theorem step_gol_spec (wld : World) (t : Bool)
    (hWeq : wld.nextGrid.width = wld.get_width)
    (hHeq : wld.nextGrid.height = wld.get_height)
    (hwfn : wld.nextGrid.WF) :
    ∃ fresh : Grid, wld.step t = some ⟨fresh, wld.get_state⟩ ∧
      fresh.width = wld.get_width ∧ fresh.height = wld.get_height ∧
      ∀ x y : Nat, x < wld.get_width → y < wld.get_height →
        fresh.get x y = (wld.get_state.get x y).map
          (fun c => golRule c
            (if t then wld.get_state.wrapCount (x : Int) (y : Int)
             else wld.get_state.boundedCount (x : Int) (y : Int))) := by
  simp only [World.get_width, World.get_height, World.get_state] at hWeq hHeq ⊢
  rw [Grid.WF] at hwfn
  obtain ⟨g2, hfold, hw2, hh2, hl2, hchar⟩ :=
    step_outer_char wld t (List.range wld.currentGrid.height) wld.nextGrid
      (fun y hy => List.mem_range.mp hy)
      hWeq hHeq (by rw [hwfn, hWeq, hHeq])
  refine ⟨g2, ?_, by omega, by omega, ?_⟩
  · unfold World.step
    simp only [World.get_width, World.get_height] at hfold ⊢
    rw [hfold]
    rfl
  · intro x y hx hy
    rw [Grid.get_eq_of_lt g2 x y (by omega) (by omega)]
    have hgw : g2.width = wld.currentGrid.width := by omega
    rw [hgw, hchar x y hx hy, if_pos (List.mem_range.mpr hy)]
    rw [Grid.get_eq_of_lt _ _ _ hx hy]
    simp only [Option.map_some']
    rfl

/-- Witness for C1: a vertical blinker in a 3x3 world, non-toroidal step. -/
theorem step_gol_spec_witness :
    ∃ fresh : Grid,
      (⟨⟨3, 3, [Cell.dead, Cell.alive, Cell.dead, Cell.dead, Cell.alive, Cell.dead,
          Cell.dead, Cell.alive, Cell.dead]⟩, Grid.ofSize 3 3⟩ : World).step false
        = some ⟨fresh, (⟨⟨3, 3, [Cell.dead, Cell.alive, Cell.dead, Cell.dead,
            Cell.alive, Cell.dead, Cell.dead, Cell.alive, Cell.dead]⟩,
            Grid.ofSize 3 3⟩ : World).get_state⟩ ∧
      fresh.width = (⟨⟨3, 3, [Cell.dead, Cell.alive, Cell.dead, Cell.dead, Cell.alive,
          Cell.dead, Cell.dead, Cell.alive, Cell.dead]⟩, Grid.ofSize 3 3⟩ : World).get_width ∧
      fresh.height = (⟨⟨3, 3, [Cell.dead, Cell.alive, Cell.dead, Cell.dead, Cell.alive,
          Cell.dead, Cell.dead, Cell.alive, Cell.dead]⟩, Grid.ofSize 3 3⟩ : World).get_height ∧
      ∀ x y : Nat,
        x < (⟨⟨3, 3, [Cell.dead, Cell.alive, Cell.dead, Cell.dead, Cell.alive, Cell.dead,
            Cell.dead, Cell.alive, Cell.dead]⟩, Grid.ofSize 3 3⟩ : World).get_width →
        y < (⟨⟨3, 3, [Cell.dead, Cell.alive, Cell.dead, Cell.dead, Cell.alive, Cell.dead,
            Cell.dead, Cell.alive, Cell.dead]⟩, Grid.ofSize 3 3⟩ : World).get_height →
        fresh.get x y
          = ((⟨⟨3, 3, [Cell.dead, Cell.alive, Cell.dead, Cell.dead, Cell.alive, Cell.dead,
              Cell.dead, Cell.alive, Cell.dead]⟩, Grid.ofSize 3 3⟩ : World).get_state.get x y).map
            (fun c => golRule c
              (if false then (⟨⟨3, 3, [Cell.dead, Cell.alive, Cell.dead, Cell.dead,
                  Cell.alive, Cell.dead, Cell.dead, Cell.alive, Cell.dead]⟩,
                  Grid.ofSize 3 3⟩ : World).get_state.wrapCount (x : Int) (y : Int)
               else (⟨⟨3, 3, [Cell.dead, Cell.alive, Cell.dead, Cell.dead, Cell.alive,
                  Cell.dead, Cell.dead, Cell.alive, Cell.dead]⟩,
                  Grid.ofSize 3 3⟩ : World).get_state.boundedCount (x : Int) (y : Int))) :=
  step_gol_spec _ false rfl rfl rfl

lemma step_inner_none (wld : World) (t : Bool) (y : Nat)
    (hy : y < wld.currentGrid.height) :
    ∀ (xs : List Nat) (acc : Grid), (∀ x ∈ xs, x < wld.currentGrid.width) →
      (∃ x ∈ xs, x ≥ acc.width ∨ y ≥ acc.height) →
      xs.foldlM (fun a2 x => stepCell wld t a2 x y) acc = none := by
  intro xs
  induction xs with
  | nil =>
    intro acc hxs hex
    rcases hex with ⟨x, hmem, _⟩
    exact absurd hmem (List.not_mem_nil x)
  | cons x0 tail ih =>
    intro acc hxs hex
    have hx0 : x0 < wld.currentGrid.width := hxs x0 (by simp)
    by_cases hoob : x0 ≥ acc.width ∨ y ≥ acc.height
    · rw [List.foldlM_cons, stepCell_none wld t acc x0 y hx0 hy hoob]
      rfl
    · push_neg at hoob
      rw [List.foldlM_cons, stepCell_some wld t acc x0 y hx0 hy (by omega) (by omega)]
      simp only [Option.bind_eq_bind, Option.some_bind]
      apply ih
      · intro x hx
        exact hxs x (by simp [hx])
      · rcases hex with ⟨x, hmem, hx⟩
        rcases List.mem_cons.mp hmem with h1 | h2
        · subst h1
          exact absurd hx (by simp; omega)
        · exact ⟨x, h2, by simpa using hx⟩

lemma step_inner_ok (wld : World) (t : Bool) (y : Nat)
    (hy : y < wld.currentGrid.height) :
    ∀ (xs : List Nat) (acc : Grid), (∀ x ∈ xs, x < wld.currentGrid.width) →
      (∀ x ∈ xs, x < acc.width ∧ y < acc.height) →
      ∃ g2, xs.foldlM (fun a2 x => stepCell wld t a2 x y) acc = some g2 ∧
        g2.width = acc.width ∧ g2.height = acc.height := by
  intro xs
  induction xs with
  | nil =>
    intro acc hxs hin
    exact ⟨acc, rfl, rfl, rfl⟩
  | cons x0 tail ih =>
    intro acc hxs hin
    have hx0 : x0 < wld.currentGrid.width := hxs x0 (by simp)
    have hin0 := hin x0 (by simp)
    rw [List.foldlM_cons, stepCell_some wld t acc x0 y hx0 hy hin0.1 hin0.2]
    simp only [Option.bind_eq_bind, Option.some_bind]
    obtain ⟨g2, hfold, hw, hh⟩ := ih
      { acc with cells := acc.cells.set (acc.width * y + x0) (newCellVal wld t x0 y) }
      (fun x hx => hxs x (by simp [hx]))
      (fun x hx => by simpa using hin x (by simp [hx]))
    exact ⟨g2, hfold, hw, hh⟩

lemma step_outer_none (wld : World) (t : Bool) :
    ∀ (ys : List Nat) (acc : Grid), (∀ y ∈ ys, y < wld.currentGrid.height) →
      (∃ y ∈ ys, ∃ x ∈ List.range wld.get_width, x ≥ acc.width ∨ y ≥ acc.height) →
      ys.foldlM (fun a y => (List.range wld.get_width).foldlM
        (fun a2 x => stepCell wld t a2 x y) a) acc = none := by
  intro ys
  induction ys with
  | nil =>
    intro acc hys hex
    rcases hex with ⟨y, hmem, _⟩
    exact absurd hmem (List.not_mem_nil y)
  | cons y0 tail ih =>
    intro acc hys hex
    have hy0 : y0 < wld.currentGrid.height := hys y0 (by simp)
    by_cases hex0 : ∃ x ∈ List.range wld.get_width, x ≥ acc.width ∨ y0 ≥ acc.height
    · rw [List.foldlM_cons,
        step_inner_none wld t y0 hy0 (List.range wld.get_width) acc
          (fun x hx => List.mem_range.mp hx) hex0]
      rfl
    · push_neg at hex0
      obtain ⟨g1, hinner, hw1, hh1⟩ :=
        step_inner_ok wld t y0 hy0 (List.range wld.get_width) acc
          (fun x hx => List.mem_range.mp hx)
          (fun x hx => ⟨(hex0 x hx).1, (hex0 x hx).2⟩)
      rw [List.foldlM_cons, hinner]
      simp only [Option.bind_eq_bind, Option.some_bind]
      apply ih
      · intro y hy
        exact hys y (by simp [hy])
      · rcases hex with ⟨y, hmem, x, hxmem, hx⟩
        rcases List.mem_cons.mp hmem with h1 | h2
        · subst h1
          rcases hx with hxl | hxr
          · exact absurd hxl (by have := (hex0 x hxmem).1; omega)
          · exact absurd hxr (by have := (hex0 x hxmem).2; omega)
        · refine ⟨y, h2, x, hxmem, ?_⟩
          rw [hw1, hh1]
          exact hx

/-- Claim C10 (amended): World::resize, in both overloads, changes only the
current grid and leaves the scratch next grid untouched; and when the new
dimensions are both positive and at least one strictly exceeds the next
grid, the immediately following step throws an out-of-bounds error while
writing the next generation, for either topology flag. -/
theorem resize_enlarged_step_fails (wld : World) (w2 h2 s : Nat)
    (hw2 : 1 ≤ w2) (hh2 : 1 ≤ h2)
    (henl : wld.nextGrid.width < w2 ∨ wld.nextGrid.height < h2) :
    (wld.resize_wh w2 h2).nextGrid = wld.nextGrid ∧
    (wld.resize_square s).nextGrid = wld.nextGrid ∧
    ∀ t, (wld.resize_wh w2 h2).step t = none := by
  refine ⟨rfl, rfl, ?_⟩
  intro t
  have hnone : (List.range (wld.resize_wh w2 h2).get_height).foldlM
      (fun a y => (List.range (wld.resize_wh w2 h2).get_width).foldlM
        (fun a2 x => stepCell (wld.resize_wh w2 h2) t a2 x y) a)
      (wld.resize_wh w2 h2).nextGrid = none := by
    apply step_outer_none
    · intro y hy
      have : y < h2 := List.mem_range.mp hy
      exact this
    · rcases henl with hlw | hlh
      · refine ⟨0, ?_, wld.nextGrid.width, ?_, Or.inl ?_⟩
        · rw [List.mem_range]
          exact (by omega : 0 < h2)
        · rw [List.mem_range]
          exact (by omega : wld.nextGrid.width < w2)
        · exact Nat.le_refl _
      · refine ⟨wld.nextGrid.height, ?_, 0, ?_, Or.inr ?_⟩
        · rw [List.mem_range]
          exact (by omega : wld.nextGrid.height < h2)
        · rw [List.mem_range]
          exact (by omega : 0 < w2)
        · exact Nat.le_refl _
  unfold World.step
  rw [hnone]
  rfl

/-- Witness for the amended C10 on a concrete 1x1 world resized to 2x1. -/
theorem resize_enlarged_step_fails_witness :
    ((⟨⟨1, 1, [Cell.dead]⟩, ⟨1, 1, [Cell.dead]⟩⟩ : World).resize_wh 2 1).nextGrid
      = (⟨⟨1, 1, [Cell.dead]⟩, ⟨1, 1, [Cell.dead]⟩⟩ : World).nextGrid ∧
    ((⟨⟨1, 1, [Cell.dead]⟩, ⟨1, 1, [Cell.dead]⟩⟩ : World).resize_square 5).nextGrid
      = (⟨⟨1, 1, [Cell.dead]⟩, ⟨1, 1, [Cell.dead]⟩⟩ : World).nextGrid ∧
    ∀ t, ((⟨⟨1, 1, [Cell.dead]⟩, ⟨1, 1, [Cell.dead]⟩⟩ : World).resize_wh 2 1).step t = none :=
  resize_enlarged_step_fails _ 2 1 5 (by decide) (by decide) (by decide)

lemma cropRow_char (src : List Cell) (srcW newW newY y x0 : Nat) :
    ∀ (n k : Nat) (cells : List Cell), k + n = newW →
      newW * (newY + 1) ≤ cells.length →
      ∃ cells2 : List Cell,
        (List.range' (x0 + k) n).foldl (cropRowStep src srcW newW newY y) (cells, k)
          = (cells2, if n = 0 then k else 0) ∧
        cells2.length = cells.length ∧
        (∀ idx : Nat, newW * newY + k ≤ idx → idx < newW * newY + k + n →
          cells2.getD idx Cell.dead
            = src.getD ((x0 + (idx - newW * newY)) + srcW * y) Cell.dead) ∧
        (∀ idx : Nat, (idx < newW * newY + k ∨ newW * newY + k + n ≤ idx) →
          cells2.getD idx Cell.dead = cells.getD idx Cell.dead) := by
  intro n
  induction n with
  | zero =>
    intro k cells hk hlen
    refine ⟨cells, rfl, rfl, ?_, ?_⟩
    · intro idx h1 h2
      omega
    · intro idx h
      rfl
  | succ n ih =>
    intro k cells hk hlen
    have hkW : k < newW := by omega
    rw [List.range'_succ]
    rw [List.foldl_cons]
    have hstep : cropRowStep src srcW newW newY y (cells, k) (x0 + k)
        = (cells.set (k + newW * newY) (src.getD ((x0 + k) + srcW * y) Cell.dead),
           if k = newW - 1 then 0 else k + 1) := rfl
    rw [hstep]
    by_cases hn : n = 0
    · subst hn
      have hkeq : k = newW - 1 := by omega
      rw [if_pos hkeq]
      refine ⟨cells.set (k + newW * newY) (src.getD ((x0 + k) + srcW * y) Cell.dead),
        ?_, by simp, ?_, ?_⟩
      · simp
      · intro idx h1 h2
        have hidx : idx = newW * newY + k := by omega
        have hlt : k + newW * newY < cells.length := by
          have : newW * (newY + 1) = newW * newY + newW := by ring
          omega
        rw [hidx]
        rw [show newW * newY + k = k + newW * newY by ring]
        rw [getD_set_self _ _ _ _ hlt]
        congr 1
        omega
      · intro idx h
        apply getD_set_other
        omega
    · rw [if_neg (by omega)]
      have hlen2 : newW * (newY + 1)
          ≤ (cells.set (k + newW * newY) (src.getD ((x0 + k) + srcW * y) Cell.dead)).length := by
        simp [hlen]
      obtain ⟨cells2, hfold, hl2, hband, hout⟩ :=
        ih (k + 1) (cells.set (k + newW * newY) (src.getD ((x0 + k) + srcW * y) Cell.dead))
          (by omega) hlen2
      rw [show x0 + (k + 1) = x0 + k + 1 by ring] at hfold
      rw [hfold]
      refine ⟨cells2, by rw [if_neg hn]; rw [if_neg (by omega)], by simpa using hl2, ?_, ?_⟩
      · intro idx h1 h2
        by_cases hfirst : idx = newW * newY + k
        · rw [hout idx (by omega)]
          have hlt : k + newW * newY < cells.length := by
            have : newW * (newY + 1) = newW * newY + newW := by ring
            omega
          rw [hfirst, show newW * newY + k = k + newW * newY by ring]
          rw [getD_set_self _ _ _ _ hlt]
          congr 1
          omega
        · rw [hband idx (by omega) (by omega)]
      · intro idx h
        rw [hout idx (by omega)]
        apply getD_set_other
        omega

lemma crop_outer_char (src : List Cell) (srcW newW x0 : Nat) :
    ∀ (m y0 r : Nat) (cells : List Cell), newW * (r + m) ≤ cells.length →
      ∃ cells2 : List Cell,
        ((List.range' y0 m).foldl (fun (st : List Cell × Nat × Nat) y =>
          let inner := (List.range' x0 newW).foldl
            (cropRowStep src srcW newW st.2.2 y) (st.1, st.2.1)
          (inner.1, inner.2, st.2.2 + 1)) (cells, 0, r))
          = (cells2, 0, r + m) ∧
        cells2.length = cells.length ∧
        (∀ i q : Nat, i < newW → r ≤ q → q < r + m →
          cells2.getD (newW * q + i) Cell.dead
            = src.getD ((x0 + i) + srcW * (y0 + (q - r))) Cell.dead) ∧
        (∀ idx : Nat, (idx < newW * r ∨ newW * (r + m) ≤ idx) →
          cells2.getD idx Cell.dead = cells.getD idx Cell.dead) := by
  intro m
  induction m with
  | zero =>
    intro y0 r cells hlen
    refine ⟨cells, rfl, rfl, ?_, ?_⟩
    · intro i q h1 h2 h3
      omega
    · intro idx h
      rfl
  | succ m ih =>
    intro y0 r cells hlen
    have hrow : newW * (r + 1) ≤ cells.length := by
      have h1 : newW * (r + 1) ≤ newW * (r + (m + 1)) :=
        Nat.mul_le_mul (Nat.le_refl newW) (by omega)
      omega
    obtain ⟨cells1, hfold1, hl1, hband1, hout1⟩ :=
      cropRow_char src srcW newW r y0 x0 newW 0 cells (by omega) hrow
    rw [Nat.add_zero] at hfold1
    rw [ite_self] at hfold1
    rw [List.range'_succ, List.foldl_cons]
    simp only [hfold1]
    obtain ⟨cells2, hfold2, hl2, hband2, hout2⟩ := ih (y0 + 1) (r + 1) cells1
      (by rw [hl1, show (r + 1) + m = r + (m + 1) from by omega]; exact hlen)
    rw [show (r + 1) + m = r + (m + 1) from by omega] at hfold2
    refine ⟨cells2, hfold2, by omega, ?_, ?_⟩
    · intro i q hi hq1 hq2
      by_cases hq : q = r
      · subst hq
        have hltidx : newW * q + i < newW * (q + 1) := rowmajor_lt newW (q + 1) i q hi (by omega)
        rw [hout2 (newW * q + i) (by omega)]
        rw [hband1 (newW * q + i) (by omega) (by omega)]
        have e1 : x0 + (newW * q + i - newW * q) = x0 + i := by omega
        have e2 : y0 = y0 + (q - q) := by omega
        rw [e1, ← e2]
      · have hq3 : r + 1 ≤ q := by omega
        rw [hband2 i q hi hq3 (by omega)]
        have e : (y0 + 1) + (q - (r + 1)) = y0 + (q - r) := by omega
        rw [e]
    · intro idx h
      have hmono : newW * r ≤ newW * (r + 1) :=
        Nat.mul_le_mul (Nat.le_refl newW) (by omega)
      have hmono2 : newW * (r + 1) ≤ newW * (r + (m + 1)) :=
        Nat.mul_le_mul (Nat.le_refl newW) (by omega)
      rw [hout2 idx (by rw [show (r + 1) + m = r + (m + 1) from by omega]; omega)]
      rw [hout1 idx ?_]
      have hexp : newW * (r + 1) = newW * r + newW := by ring
      omega

/-- Claim C6: crop(x0, y0, x1, y1) fails exactly when x0 greater than x1, or
y0 greater than y1, or any window coordinate exceeds the grid dimensions;
otherwise it returns a new grid of width x1-x0 and height y1-y0 (zero-sized
allowed) whose cell (i, j) equals the source cell (x0+i, y0+j). -/
theorem crop_spec (g : Grid) (x0 y0 x1 y1 : Nat) :
    (g.crop x0 y0 x1 y1 = none ↔
      (x0 > x1 ∨ y0 > y1 ∨ x0 > g.width ∨ x1 > g.width ∨ y0 > g.height ∨ y1 > g.height)) ∧
    (¬(x0 > x1 ∨ y0 > y1 ∨ x0 > g.width ∨ x1 > g.width ∨ y0 > g.height ∨ y1 > g.height) →
      ∃ res : Grid, g.crop x0 y0 x1 y1 = some res ∧
        res.width = x1 - x0 ∧ res.height = y1 - y0 ∧
        ∀ i j : Nat, i < x1 - x0 → j < y1 - y0 →
          res.get i j = g.get (x0 + i) (y0 + j)) := by
  by_cases hguard : x0 > g.width ∨ x1 > g.width ∨ y0 > g.height ∨ y1 > g.height ∨
      x0 > x1 ∨ y0 > y1
  · have hnone : g.crop x0 y0 x1 y1 = none := by
      unfold Grid.crop
      rw [if_pos hguard]
    constructor
    · rw [hnone]
      constructor
      · intro _
        tauto
      · intro _
        rfl
    · intro hnc
      exact absurd (by tauto : x0 > x1 ∨ y0 > y1 ∨ x0 > g.width ∨ x1 > g.width ∨
        y0 > g.height ∨ y1 > g.height) hnc
  · push_neg at hguard
    obtain ⟨hxw, hx1w, hyh, hy1h, hxx, hyy⟩ := hguard
    obtain ⟨cells2, hfold, hlen2, hband, hout⟩ :=
      crop_outer_char g.cells g.width (x1 - x0) x0 (y1 - y0) y0 0
        (List.replicate ((x1 - x0) * (y1 - y0)) Cell.dead) (by simp)
    have hcrop : g.crop x0 y0 x1 y1 = some ⟨x1 - x0, y1 - y0, cells2⟩ := by
      unfold Grid.crop
      rw [if_neg (by omega)]
      simp only [hfold]
    constructor
    · rw [hcrop]
      constructor
      · intro h
        exact absurd h (by simp)
      · intro h
        omega
    · intro _
      refine ⟨⟨x1 - x0, y1 - y0, cells2⟩, hcrop, rfl, rfl, ?_⟩
      intro i j hi hj
      rw [Grid.get_eq_of_lt (⟨x1 - x0, y1 - y0, cells2⟩ : Grid) i j
        (show i < x1 - x0 from hi) (show j < y1 - y0 from hj)]
      rw [Grid.get_eq_of_lt g (x0 + i) (y0 + j) (by omega) (by omega)]
      show some (cells2.getD ((x1 - x0) * j + i) Cell.dead) = _
      rw [hband i j hi (by omega) (by omega)]
      have e1 : y0 + (j - 0) = y0 + j := by omega
      rw [e1]
      congr 1
      have e2 : g.width * (y0 + j) + (x0 + i) = (x0 + i) + g.width * (y0 + j) := by
        omega
      rw [e2]

/-- Witness for C6: crop the centre 2x2 of a 3x3 diagonal grid. -/
theorem crop_spec_witness :
    ∃ res : Grid,
      (⟨3, 3, [Cell.alive, Cell.dead, Cell.dead, Cell.dead, Cell.alive, Cell.dead,
        Cell.dead, Cell.dead, Cell.alive]⟩ : Grid).crop 1 1 3 3 = some res ∧
      res.width = 3 - 1 ∧ res.height = 3 - 1 ∧
      ∀ i j : Nat, i < 3 - 1 → j < 3 - 1 →
        res.get i j = (⟨3, 3, [Cell.alive, Cell.dead, Cell.dead, Cell.dead, Cell.alive,
          Cell.dead, Cell.dead, Cell.dead, Cell.alive]⟩ : Grid).get (1 + i) (1 + j) :=
  (crop_spec ⟨3, 3, [Cell.alive, Cell.dead, Cell.dead, Cell.dead, Cell.alive, Cell.dead,
    Cell.dead, Cell.dead, Cell.alive]⟩ 1 1 3 3).2 (by decide)

lemma Grid.set_dims (g : Grid) (x y : Nat) (v : Cell) (g1 : Grid)
    (h : g.set x y v = some g1) :
    g1.width = g.width ∧ g1.height = g.height ∧ g1.cells.length = g.cells.length := by
  unfold Grid.set at h
  split at h
  · exact absurd h (by simp)
  · rw [Option.some.injEq] at h
    cases h
    exact ⟨rfl, rfl, by simp⟩

lemma processChars_some_dims : ∀ (cs : List Char) (g : Grid) (y x : Nat) (g2 : Grid),
    processChars g y x cs = some g2 →
    g2.width = g.width ∧ g2.height = g.height ∧ g2.cells.length = g.cells.length := by
  intro cs
  induction cs with
  | nil =>
    intro g y x g2 h
    unfold processChars at h
    rw [Option.some.injEq] at h
    cases h
    exact ⟨rfl, rfl, rfl⟩
  | cons c cs ih =>
    intro g y x g2 h
    unfold processChars at h
    split at h
    · cases hset : g.set x y Cell.alive with
      | none => rw [hset] at h; exact absurd h (by simp)
      | some g1 =>
        rw [hset] at h
        simp only [Option.some_bind] at h
        have h1 := Grid.set_dims g x y Cell.alive g1 hset
        have h2 := ih g1 y (x + 1) g2 h
        exact ⟨by omega, by omega, by omega⟩
    · split at h
      · cases hset : g.set x y Cell.dead with
        | none => rw [hset] at h; exact absurd h (by simp)
        | some g1 =>
          rw [hset] at h
          simp only [Option.some_bind] at h
          have h1 := Grid.set_dims g x y Cell.dead g1 hset
          have h2 := ih g1 y (x + 1) g2 h
          exact ⟨by omega, by omega, by omega⟩
      · exact absurd h (by simp)

lemma processChars_none_iff : ∀ (cs : List Char) (g : Grid) (y x : Nat), y < g.height →
    (processChars g y x cs = none ↔
      ((∃ c ∈ cs, c ≠ '#' ∧ c ≠ ' ') ∨ (0 < cs.length ∧ g.width < x + cs.length))) := by
  intro cs
  induction cs with
  | nil =>
    intro g y x hy
    unfold processChars
    simp
  | cons c cs ih =>
    intro g y x hy
    unfold processChars
    by_cases hch : c = '#'
    · rw [if_pos hch]
      by_cases hxw : x < g.width
      · rw [Grid.set_eq_of_lt g x y Cell.alive hxw hy]
        simp only [Option.some_bind]
        have hih := ih ({ g with cells := g.cells.set (g.width * y + x) Cell.alive }) y (x + 1)
          (show y < ({ g with cells := g.cells.set (g.width * y + x) Cell.alive } : Grid).height from hy)
        have hwr : ({ g with cells := g.cells.set (g.width * y + x) Cell.alive } : Grid).width = g.width := rfl
        rw [hwr] at hih
        rw [hih]
        constructor
        · rintro (⟨c2, hm, hb⟩ | ⟨h1, h2⟩)
          · exact Or.inl ⟨c2, by simp [hm], hb⟩
          · refine Or.inr ⟨by have hcl : (c :: cs).length = cs.length + 1 := rfl; omega, by have hcl : (c :: cs).length = cs.length + 1 := rfl; omega⟩
        · rintro (⟨c2, hm, hb⟩ | ⟨h1, h2⟩)
          · rcases List.mem_cons.mp hm with he | hm2
            · subst he
              exact absurd hch hb.1
            · exact Or.inl ⟨c2, hm2, hb⟩
          · simp at h2
            by_cases hlen : cs.length = 0
            · exact absurd hxw (by omega)
            · exact Or.inr ⟨by omega, by have hcl : (c :: cs).length = cs.length + 1 := rfl; omega⟩
      · rw [Grid.set_none_of_oob g x y Cell.alive (by omega)]
        simp only [Option.none_bind]
        constructor
        · intro _
          exact Or.inr ⟨by have hcl : (c :: cs).length = cs.length + 1 := rfl; omega, by have hcl : (c :: cs).length = cs.length + 1 := rfl; omega⟩
        · intro _
          trivial
    · rw [if_neg hch]
      by_cases hcs : c = ' '
      · rw [if_pos hcs]
        by_cases hxw : x < g.width
        · rw [Grid.set_eq_of_lt g x y Cell.dead hxw hy]
          simp only [Option.some_bind]
          have hih := ih ({ g with cells := g.cells.set (g.width * y + x) Cell.dead }) y (x + 1)
            (show y < ({ g with cells := g.cells.set (g.width * y + x) Cell.dead } : Grid).height from hy)
          have hwr : ({ g with cells := g.cells.set (g.width * y + x) Cell.dead } : Grid).width = g.width := rfl
          rw [hwr] at hih
          rw [hih]
          constructor
          · rintro (⟨c2, hm, hb⟩ | ⟨h1, h2⟩)
            · exact Or.inl ⟨c2, by simp [hm], hb⟩
            · refine Or.inr ⟨by have hcl : (c :: cs).length = cs.length + 1 := rfl; omega, by have hcl : (c :: cs).length = cs.length + 1 := rfl; omega⟩
          · rintro (⟨c2, hm, hb⟩ | ⟨h1, h2⟩)
            · rcases List.mem_cons.mp hm with he | hm2
              · subst he
                exact absurd hcs hb.2
              · exact Or.inl ⟨c2, hm2, hb⟩
            · simp at h2
              by_cases hlen : cs.length = 0
              · exact absurd hxw (by omega)
              · exact Or.inr ⟨by omega, by have hcl : (c :: cs).length = cs.length + 1 := rfl; omega⟩
        · rw [Grid.set_none_of_oob g x y Cell.dead (by omega)]
          simp only [Option.none_bind]
          constructor
          · intro _
            exact Or.inr ⟨by have hcl : (c :: cs).length = cs.length + 1 := rfl; omega, by have hcl : (c :: cs).length = cs.length + 1 := rfl; omega⟩
          · intro _
            trivial
      · rw [if_neg hcs]
        constructor
        · intro _
          exact Or.inl ⟨c, by simp, hch, hcs⟩
        · intro _
          trivial

/-- Number of lines of length exactly w among the first k lines; this is the
value of the loader's row counter y when line k is about to be processed. -/
def exactCount (w : Nat) (lines : List (List Char)) (k : Nat) : Nat :=
  ((lines.take k).filter (fun l => l.length == w)).length

/-- A line makes the loader throw when processed with row counter y: a
length mismatch with y > 0, an invalid character, or a line longer than the
grid width (whose writes run past the row and make Grid::set throw). -/
def badLine (w : Nat) (line : List Char) (y : Nat) : Prop :=
  (0 < y ∧ line.length ≠ w) ∨ (∃ c ∈ line, c ≠ '#' ∧ c ≠ ' ') ∨
    (0 < line.length ∧ w < line.length)

instance (w : Nat) (line : List Char) (y : Nat) : Decidable (badLine w line y) := by
  unfold badLine
  infer_instance

lemma exactCount_zero (w : Nat) (lines : List (List Char)) : exactCount w lines 0 = 0 := rfl

lemma exactCount_cons_succ (w : Nat) (line : List Char) (rest : List (List Char)) (k : Nat) :
    exactCount w (line :: rest) (k + 1)
      = (if line.length = w then 1 else 0) + exactCount w rest k := by
  unfold exactCount
  rw [List.take_succ_cons, List.filter_cons]
  by_cases h : line.length = w
  · simp [h]
    omega
  · simp [h]

lemma loadLines_none_iff (w h : Nat) :
    ∀ (lines : List (List Char)) (g : Grid) (y : Nat), g.width = w → g.height = h →
    (loadLines h g y lines = none ↔
      ∃ k, k < lines.length ∧ y + exactCount w lines k < h ∧
        badLine w (lines.getD k []) (y + exactCount w lines k)) := by
  intro lines
  induction lines with
  | nil =>
    intro g y hgw hgh
    simp [loadLines]
  | cons line rest ih =>
    intro g y hgw hgh
    by_cases hyh : y < h
    · have hstep : loadLines h g y (line :: rest)
          = if line.length ≠ g.width ∧ y > 0 then none
            else (processChars g y 0 line).bind (fun g2 =>
              loadLines h g2 (if line.length = g.width then y + 1 else y) rest) := by
        simp only [loadLines]
        rw [if_pos hyh]
      rw [hstep]
      by_cases hthrow : line.length ≠ g.width ∧ y > 0
      · obtain ⟨ht1, ht2⟩ := hthrow
        rw [if_pos ⟨ht1, ht2⟩]
        constructor
        · intro _
          refine ⟨0, by simp, ?_, ?_⟩
          · rw [exactCount_zero]
            omega
          · rw [exactCount_zero, show ((line :: rest).getD 0 []) = line from rfl]
            refine Or.inl ⟨by omega, ?_⟩
            rw [← hgw]
            exact ht1
        · intro _
          trivial
      · rw [if_neg hthrow]
        have hshift : ∀ k : Nat,
            (if line.length = g.width then y + 1 else y) + exactCount w rest k
              = y + exactCount w (line :: rest) (k + 1) := by
          intro k
          rw [exactCount_cons_succ]
          by_cases hlw : line.length = w
          · rw [if_pos (by rw [hgw]; exact hlw), if_pos hlw]
            omega
          · rw [if_neg (by rw [hgw]; exact hlw), if_neg hlw]
            omega
        cases hpc : processChars g y 0 line with
        | none =>
          simp only [Option.none_bind]
          have hbad : badLine w line y := by
            rcases (processChars_none_iff line g y 0 (by omega)).mp hpc with hb | ⟨h1, h2⟩
            · exact Or.inr (Or.inl hb)
            · exact Or.inr (Or.inr ⟨h1, by omega⟩)
          constructor
          · intro _
            refine ⟨0, by simp, ?_, ?_⟩
            · rw [exactCount_zero]
              omega
            · rw [exactCount_zero, show ((line :: rest).getD 0 []) = line from rfl,
                Nat.add_zero]
              exact hbad
          · intro _
            trivial
        | some g2 =>
          simp only [Option.some_bind]
          obtain ⟨hg2w, hg2h, _⟩ := processChars_some_dims line g y 0 g2 hpc
          have hnotbad : ¬ badLine w line y := by
            intro hb
            rcases hb with h1 | h2 | h3
            · exact hthrow ⟨by rw [hgw]; exact h1.2, h1.1⟩
            · have hcon := (processChars_none_iff line g y 0 (by omega)).mpr (Or.inl h2)
              rw [hpc] at hcon
              exact absurd hcon (by simp)
            · have hcon := (processChars_none_iff line g y 0 (by omega)).mpr
                (Or.inr ⟨h3.1, by omega⟩)
              rw [hpc] at hcon
              exact absurd hcon (by simp)
          rw [ih g2 (if line.length = g.width then y + 1 else y) (by omega) (by omega)]
          constructor
          · rintro ⟨k, hk, hcount, hbad⟩
            refine ⟨k + 1, by simp; omega, ?_, ?_⟩
            · rw [← hshift k]
              exact hcount
            · rw [show ((line :: rest).getD (k + 1) []) = rest.getD k [] from rfl,
                ← hshift k]
              exact hbad
          · rintro ⟨k, hk, hcount, hbad⟩
            cases k with
            | zero =>
              exfalso
              rw [exactCount_zero, Nat.add_zero,
                show ((line :: rest).getD 0 []) = line from rfl] at hbad
              exact hnotbad hbad
            | succ k2 =>
              refine ⟨k2, by simp at hk; omega, ?_, ?_⟩
              · rw [hshift k2]
                exact hcount
              · rw [hshift k2]
                rw [show ((line :: rest).getD (k2 + 1) []) = rest.getD k2 [] from rfl] at hbad
                exact hbad
    · have hstep : loadLines h g y (line :: rest) = some g := by
        simp only [loadLines]
        rw [if_neg hyh]
      rw [hstep]
      constructor
      · intro hcon
        exact absurd hcon (by simp)
      · rintro ⟨k, hk, hcount, hbad⟩
        exfalso
        omega

/-- Claim C8 (amended): the ascii loader fails exactly when the file cannot
be opened, a parsed dimension is negative, or some line k is reached while
fewer than height exact-width lines have been consumed and line k is bad:
wrong length while the row counter is positive, an invalid character, or
longer than width.  In particular a wrong-length line read while the row
counter is still 0 (the header remainder, the first data line, and any
further lines until one of exact width appears) is not length-checked. -/
theorem load_ascii_failure_characterization (inp : AsciiInput) :
    Zoo.load_ascii inp = none ↔
      (inp.canOpen = false ∨ inp.width < 0 ∨ inp.height < 0 ∨
        ∃ k, k < inp.lines.length ∧
          exactCount inp.width.toNat inp.lines k < inp.height.toNat ∧
          badLine inp.width.toNat (inp.lines.getD k [])
            (exactCount inp.width.toNat inp.lines k)) := by
  unfold Zoo.load_ascii
  by_cases hopen : inp.canOpen = false
  · rw [if_pos hopen]
    constructor
    · intro _
      exact Or.inl hopen
    · intro _
      rfl
  · rw [if_neg hopen]
    by_cases hneg : inp.width < 0 ∨ inp.height < 0
    · rw [if_pos hneg]
      constructor
      · intro _
        rcases hneg with h | h
        · exact Or.inr (Or.inl h)
        · exact Or.inr (Or.inr (Or.inl h))
      · intro _
        rfl
    · rw [if_neg hneg]
      rw [loadLines_none_iff inp.width.toNat inp.height.toNat inp.lines
        (Grid.ofSize inp.width.toNat inp.height.toNat) 0 rfl rfl]
      constructor
      · rintro ⟨k, hk, hc, hb⟩
        rw [Nat.zero_add] at hc hb
        exact Or.inr (Or.inr (Or.inr ⟨k, hk, hc, hb⟩))
      · rintro (h | h | h | ⟨k, hk, hc, hb⟩)
        · exact absurd h hopen
        · exact absurd (Or.inl h) hneg
        · exact absurd (Or.inr h) hneg
        · refine ⟨k, hk, ?_, ?_⟩
          · rw [Nat.zero_add]
            exact hc
          · rw [Nat.zero_add]
            exact hb

/-- Counterexample to C8 as stated: a file with width 2, height 1 whose
first data line is the single character hash (length 1, not 2) is loaded
without any error; the loader never length-checks a line while its row
counter is still 0, so it returns the 2x1 grid with (0,0) ALIVE. -/
theorem load_ascii_tolerates_short_first_data_line :
    Zoo.load_ascii ⟨true, 2, 1, [[], ['#']]⟩
      = some ⟨2, 1, [Cell.alive, Cell.dead]⟩ := by decide

/-- Witness for the amended C8: a wrong-length line after an exact-width
line does make the loader fail. -/
theorem load_ascii_failure_characterization_witness :
    Zoo.load_ascii ⟨true, 2, 2, [[], ['#', ' '], ['#']]⟩ = none :=
  (load_ascii_failure_characterization ⟨true, 2, 2, [[], ['#', ' '], ['#']]⟩).mpr
    (Or.inr (Or.inr (Or.inr ⟨2, by decide, by decide, by decide⟩)))

lemma bits8 (b0 b1 b2 b3 b4 b5 b6 b7 : Bool) :
    let v := b0.toNat * 1 + b1.toNat * 2 + b2.toNat * 4 + b3.toNat * 8 +
      b4.toNat * 16 + b5.toNat * 32 + b6.toNat * 64 + b7.toNat * 128
    (v >>> 0) &&& 1 = b0.toNat ∧ (v >>> 1) &&& 1 = b1.toNat ∧
    (v >>> 2) &&& 1 = b2.toNat ∧ (v >>> 3) &&& 1 = b3.toNat ∧
    (v >>> 4) &&& 1 = b4.toNat ∧ (v >>> 5) &&& 1 = b5.toNat ∧
    (v >>> 6) &&& 1 = b6.toNat ∧ (v >>> 7) &&& 1 = b7.toNat := by
  cases b0 <;> cases b1 <;> cases b2 <;> cases b3 <;> cases b4 <;> cases b5 <;>
    cases b6 <;> cases b7 <;> decide

lemma bitsetOf_eq_false (v i : Nat) (h : v ≤ i) : bitsetOf v i = false := by
  unfold bitsetOf
  apply Nat.testBit_eq_false_of_lt
  calc u32 v ≤ v := Nat.mod_le v 4294967296
  _ < 2 ^ v := Nat.lt_two_pow v
  _ ≤ 2 ^ i := Nat.pow_le_pow_right (by omega) h

lemma clearBits_char (n : Nat) (hn : n ≤ 500) (bs : Nat → Bool) :
    ∃ bs2, clearBits bs n = some bs2 ∧ ∀ i, bs2 i = if i < n then false else bs i := by
  unfold clearBits
  induction n with
  | zero =>
    refine ⟨bs, rfl, ?_⟩
    intro i
    rfl
  | succ n ih =>
    obtain ⟨bs2, hfold, hchar⟩ := ih (by omega)
    rw [List.range_succ, List.foldlM_append, hfold]
    simp only [Option.bind_eq_bind, Option.some_bind, List.foldlM_cons, List.foldlM_nil]
    have hset : bsSet bs2 n false = some (fun j => if j = n then false else bs2 j) := by
      unfold bsSet
      rw [if_pos (by omega)]
    rw [hset]
    simp only [Option.some_bind, Option.pure_def]
    refine ⟨_, rfl, ?_⟩
    intro i
    by_cases hi : i = n
    · rw [if_pos hi, if_pos (by omega)]
    · rw [if_neg hi, hchar i]
      by_cases h2 : i < n
      · rw [if_pos h2, if_pos (by omega)]
      · rw [if_neg h2, if_neg (by omega)]

lemma cleared_bitset_all_false (wh : Nat) (hwh : wh ≤ 500) :
    ∃ bs2, clearBits (bitsetOf wh) wh = some bs2 ∧ ∀ i, bs2 i = false := by
  obtain ⟨bs2, hfold, hchar⟩ := clearBits_char wh hwh (bitsetOf wh)
  refine ⟨bs2, hfold, ?_⟩
  intro i
  rw [hchar i]
  by_cases hi : i < wh
  · rw [if_pos hi]
  · rw [if_neg hi]
    exact bitsetOf_eq_false wh i (by omega)

lemma rowmajor_surj (w h i : Nat) :
    (∃ y, y < h ∧ ∃ x, x < w ∧ i = w * y + x) ↔ i < w * h := by
  constructor
  · rintro ⟨y, hy, x, hx, rfl⟩
    exact rowmajor_lt w h x y hx hy
  · intro hi
    have hw : 0 < w := by
      by_contra h0
      have hw0 : w = 0 := by omega
      rw [hw0, Nat.zero_mul] at hi
      omega
    refine ⟨i / w, ?_, i % w, Nat.mod_lt i hw, ?_⟩
    · rw [Nat.div_lt_iff_lt_mul hw]
      rw [Nat.mul_comm] at hi
      exact hi
    · exact (Nat.div_add_mod i w).symm

lemma fill_inner_char (g : Grid) (hwh : g.width * g.height ≤ 496) (y : Nat)
    (hy : y < g.height) :
    ∀ (xs : List Nat) (bs : Nat → Bool), (∀ x ∈ xs, x < g.width) →
      ∃ bs2, (xs.foldlM (fun bs2 (x : Nat) =>
          (g.get x y).bind (fun c =>
            if c = Cell.alive then bsSet bs2 (u32 (g.get_index x y)) true
            else some bs2)) bs) = some bs2 ∧
        ∀ i, bs2 i = true ↔
          ((∃ x ∈ xs, i = g.width * y + x ∧ g.cells.getD i Cell.dead = Cell.alive) ∨
            bs i = true) := by
  intro xs
  induction xs with
  | nil =>
    intro bs hxs
    refine ⟨bs, rfl, ?_⟩
    intro i
    simp
  | cons x0 tail ih =>
    intro bs hxs
    have hx0 : x0 < g.width := hxs x0 (by simp)
    have hlt : g.width * y + x0 < g.width * g.height := rowmajor_lt _ _ _ _ hx0 hy
    have hidx : u32 (g.get_index x0 y) = g.width * y + x0 := by
      unfold Grid.get_index u32
      exact Nat.mod_eq_of_lt (by omega)
    rw [List.foldlM_cons, Grid.get_eq_of_lt g x0 y hx0 hy]
    simp only [Option.bind_eq_bind, Option.some_bind]
    cases hcell : g.cells.getD (g.width * y + x0) Cell.dead with
    | dead =>
      rw [if_neg (by simp)]
      obtain ⟨bs2, hfold, hchar⟩ := ih bs (fun x hx => hxs x (by simp [hx]))
      refine ⟨bs2, hfold, ?_⟩
      intro i
      rw [hchar i]
      constructor
      · rintro (⟨x, hm, he, ha⟩ | hb)
        · exact Or.inl ⟨x, by simp [hm], he, ha⟩
        · exact Or.inr hb
      · rintro (⟨x, hm, he, ha⟩ | hb)
        · rcases List.mem_cons.mp hm with h1 | h2
          · subst h1
            rw [he] at ha
            rw [hcell] at ha
            exact absurd ha (by simp)
          · exact Or.inl ⟨x, h2, he, ha⟩
        · exact Or.inr hb
    | alive =>
      rw [if_pos rfl]
      have hset : bsSet bs (u32 (g.get_index x0 y)) true
          = some (fun j => if j = u32 (g.get_index x0 y) then true else bs j) := by
        unfold bsSet
        rw [if_pos (by rw [hidx]; omega)]
      rw [hset]
      simp only [Option.some_bind]
      obtain ⟨bs2, hfold, hchar⟩ :=
        ih (fun j => if j = u32 (g.get_index x0 y) then true else bs j)
          (fun x hx => hxs x (by simp [hx]))
      refine ⟨bs2, hfold, ?_⟩
      intro i
      rw [hchar i]
      constructor
      · rintro (⟨x, hm, he, ha⟩ | hb)
        · exact Or.inl ⟨x, by simp [hm], he, ha⟩
        · by_cases hieq : i = u32 (g.get_index x0 y)
          · refine Or.inl ⟨x0, by simp, ?_, ?_⟩
            · rw [hieq, hidx]
            · rw [hieq, hidx]
              exact hcell
          · rw [if_neg hieq] at hb
            exact Or.inr hb
      · rintro (⟨x, hm, he, ha⟩ | hb)
        · rcases List.mem_cons.mp hm with h1 | h2
          · subst h1
            right
            rw [if_pos (by rw [hidx]; exact he)]
          · exact Or.inl ⟨x, h2, he, ha⟩
        · right
          by_cases hieq : i = u32 (g.get_index x0 y)
          · rw [if_pos hieq]
          · rw [if_neg hieq]
            exact hb

lemma fill_outer_char (g : Grid) (hwh : g.width * g.height ≤ 496) :
    ∀ (ys : List Nat) (bs : Nat → Bool), (∀ y ∈ ys, y < g.height) →
      ∃ bs2, (ys.foldlM (fun bs (y : Nat) =>
          (List.range g.width).foldlM (fun bs2 (x : Nat) =>
            (g.get x y).bind (fun c =>
              if c = Cell.alive then bsSet bs2 (u32 (g.get_index x y)) true
              else some bs2)) bs) bs) = some bs2 ∧
        ∀ i, bs2 i = true ↔
          ((∃ y ∈ ys, ∃ x, x < g.width ∧ i = g.width * y + x ∧
              g.cells.getD i Cell.dead = Cell.alive) ∨ bs i = true) := by
  intro ys
  induction ys with
  | nil =>
    intro bs hys
    refine ⟨bs, rfl, ?_⟩
    intro i
    simp
  | cons y0 tail ih =>
    intro bs hys
    have hy0 : y0 < g.height := hys y0 (by simp)
    obtain ⟨bs1, hinner, hchar1⟩ :=
      fill_inner_char g hwh y0 hy0 (List.range g.width) bs
        (fun x hx => List.mem_range.mp hx)
    rw [List.foldlM_cons, hinner]
    simp only [Option.bind_eq_bind, Option.some_bind]
    obtain ⟨bs2, hfold, hchar2⟩ := ih bs1 (fun y hy => hys y (by simp [hy]))
    refine ⟨bs2, hfold, ?_⟩
    intro i
    rw [hchar2 i]
    constructor
    · rintro (⟨y, hm, x, hx, he, ha⟩ | hb)
      · exact Or.inl ⟨y, by simp [hm], x, hx, he, ha⟩
      · rcases (hchar1 i).mp hb with ⟨x, hm, he, ha⟩ | hb2
        · exact Or.inl ⟨y0, by simp, x, List.mem_range.mp hm, he, ha⟩
        · exact Or.inr hb2
    · rintro (⟨y, hm, x, hx, he, ha⟩ | hb)
      · rcases List.mem_cons.mp hm with h1 | h2
        · subst h1
          right
          exact (hchar1 i).mpr (Or.inl ⟨x, List.mem_range.mpr hx, he, ha⟩)
        · exact Or.inl ⟨y, h2, x, hx, he, ha⟩
      · right
        exact (hchar1 i).mpr (Or.inr hb)

lemma bsGet_lt (bs : Nat → Bool) (i : Nat) (h : i < 500) : bsGet bs i = some (bs i) := by
  unfold bsGet
  rw [if_pos h]

lemma bsGet_ge (bs : Nat → Bool) (i : Nat) (h : ¬ i < 500) : bsGet bs i = none := by
  unfold bsGet
  rw [if_neg h]

lemma packBytes_stop (bs : Nat → Bool) (total i : Nat) (h : ¬ i < total) :
    packBytes bs total i = some [] := by
  rw [packBytes.eq_def]
  rw [if_neg h]

lemma packBytes_succ (bs : Nat → Bool) (total i : Nat) (h : i < total)
    (h500 : i + 8 ≤ 500) :
    packBytes bs total i = (packBytes bs total (i + 8)).map
      (fun rest => ((bs i).toNat * 1 + (bs (i + 1)).toNat * 2 +
        (bs (i + 2)).toNat * 4 + (bs (i + 3)).toNat * 8 +
        (bs (i + 4)).toNat * 16 + (bs (i + 5)).toNat * 32 +
        (bs (i + 6)).toNat * 64 + (bs (i + 7)).toNat * 128) :: rest) := by
  rw [packBytes.eq_def]
  rw [if_pos h]
  rw [bsGet_lt bs i (by omega), bsGet_lt bs (i + 1) (by omega),
    bsGet_lt bs (i + 2) (by omega), bsGet_lt bs (i + 3) (by omega),
    bsGet_lt bs (i + 4) (by omega), bsGet_lt bs (i + 5) (by omega),
    bsGet_lt bs (i + 6) (by omega), bsGet_lt bs (i + 7) (by omega)]
  simp only [Option.bind_eq_bind, Option.some_bind]
  cases packBytes bs total (i + 8) with
  | none => rfl
  | some rest => rfl

lemma packBytes_full (bs : Nat → Bool) (total : Nat) (ht : total ≤ 496) :
    ∀ k i, 8 ∣ i → total ≤ i + 8 * k → i ≤ total + 7 →
      ∃ bytes, packBytes bs total i = some bytes ∧
        total ≤ i + 8 * bytes.length ∧ i + 8 * bytes.length ≤ total + 7 ∧
        (∀ t kk, t < bytes.length → kk < 8 →
          ((bytes.getD t 0) >>> kk) &&& 1 = (bs (i + (8 * t + kk))).toNat) := by
  intro k
  induction k with
  | zero =>
    intro i h8 hle hub
    refine ⟨[], packBytes_stop bs total i (by omega), by simpa using hle,
      by simpa using hub, ?_⟩
    intro t kk ht2 hk
    simp at ht2
  | succ k ih =>
    intro i h8 hle hub
    by_cases hi : i < total
    · have h500 : i + 8 ≤ 500 := by
        obtain ⟨m, rfl⟩ := h8
        omega
      have h8n : 8 ∣ i + 8 := by
        obtain ⟨m, rfl⟩ := h8
        exact ⟨m + 1, by ring⟩
      obtain ⟨bytes, hp, hlen, hlen2, hbits⟩ := ih (i + 8) h8n (by omega) (by omega)
      refine ⟨_, by rw [packBytes_succ bs total i hi h500, hp]; rfl, ?_, ?_, ?_⟩
      · simp only [List.length_cons]
        omega
      · simp only [List.length_cons]
        omega
      · intro t kk ht2 hk
        cases t with
        | zero =>
          obtain ⟨e0, e1, e2, e3, e4, e5, e6, e7⟩ :=
            bits8 (bs i) (bs (i + 1)) (bs (i + 2)) (bs (i + 3)) (bs (i + 4))
              (bs (i + 5)) (bs (i + 6)) (bs (i + 7))
          simp only [List.getD_cons_zero]
          interval_cases kk
          · simpa using e0
          · simpa using e1
          · simpa using e2
          · simpa using e3
          · simpa using e4
          · simpa using e5
          · simpa using e6
          · simpa using e7
        | succ t2 =>
          have hlt : t2 < bytes.length := by
            simp only [List.length_cons] at ht2
            omega
          have := hbits t2 kk hlt hk
          simp only [List.getD_cons_succ]
          rw [this]
          have harith : i + 8 + (8 * t2 + kk) = i + (8 * (t2 + 1) + kk) := by ring
          rw [harith]
    · refine ⟨[], packBytes_stop bs total i hi, by simp; omega, by simp; omega, ?_⟩
      intro t kk ht2 hk
      simp at ht2

lemma save_binary_char (g : Grid) (hwh : g.width * g.height ≤ 496) :
    ∃ bytes, Zoo.save_binary g = some ⟨u32 g.width, u32 g.height, bytes⟩ ∧
      g.width * g.height ≤ 8 * bytes.length ∧
      8 * bytes.length ≤ g.width * g.height + 7 ∧
      ∀ t kk, t < bytes.length → kk < 8 →
        (((bytes.getD t 0) >>> kk) &&& 1 = 1 ↔
          (8 * t + kk < g.width * g.height ∧
            g.cells.getD (8 * t + kk) Cell.dead = Cell.alive)) := by
  have hu : u32 (g.width * g.height) = g.width * g.height :=
    Nat.mod_eq_of_lt (by omega)
  obtain ⟨bs1, hclear, hfalse⟩ :=
    cleared_bitset_all_false (g.width * g.height) (by omega)
  obtain ⟨bs2, hfill, hchar⟩ := fill_outer_char g hwh (List.range g.height) bs1
    (fun y hy => List.mem_range.mp hy)
  obtain ⟨bytes, hpack, hlen1, hlen2, hbits⟩ :=
    packBytes_full bs2 (g.width * g.height) hwh (g.width * g.height) 0
      ⟨0, rfl⟩ (by omega) (by omega)
  refine ⟨bytes, ?_, by omega, by omega, ?_⟩
  · simp only [Zoo.save_binary]
    rw [hu, hclear]
    simp only [Option.bind_eq_bind, Option.some_bind]
    rw [hfill]
    simp only [Option.some_bind]
    rw [hpack]
    rfl
  · intro t kk ht hk
    have hb := hbits t kk ht hk
    simp only [Nat.zero_add] at hb
    rw [hb]
    have hc := hchar (8 * t + kk)
    constructor
    · intro h1
      have htrue : bs2 (8 * t + kk) = true := by
        cases hx : bs2 (8 * t + kk)
        · rw [hx] at h1
          simp at h1
        · rfl
      rcases hc.mp htrue with ⟨y, hy, x, hx, he, ha⟩ | hb2
      · refine ⟨?_, ha⟩
        rw [he]
        exact rowmajor_lt _ _ _ _ hx (List.mem_range.mp hy)
      · rw [hfalse _] at hb2
        exact absurd hb2 (by simp)
    · rintro ⟨hlt, ha⟩
      obtain ⟨y, hy, x, hx, he⟩ := (rowmajor_surj _ _ _).mpr hlt
      have htrue : bs2 (8 * t + kk) = true :=
        hc.mpr (Or.inl ⟨y, List.mem_range.mpr hy, x, hx, he, ha⟩)
      rw [htrue]
      rfl

lemma readBits_range_char (byte : Nat) :
    ∀ (n a : Nat) (bs : Nat → Bool) (c : Nat), c + n ≤ 500 →
      ∃ bs2, ((List.range' a n).foldlM (fun st2 (k : Nat) =>
          if (byte >>> k) &&& 1 = 1 then
            (bsSet st2.1 st2.2 true).map (fun bs3 => (bs3, st2.2 + 1))
          else some (st2.1, st2.2 + 1)) ((bs, c) : (Nat → Bool) × Nat))
            = some (bs2, c + n) ∧
        ∀ j, bs2 j = true ↔
          ((∃ t, t < n ∧ j = c + t ∧ (byte >>> (a + t)) &&& 1 = 1) ∨
            bs j = true) := by
  intro n
  induction n with
  | zero =>
    intro a bs c hc
    refine ⟨bs, by simp, ?_⟩
    intro j
    simp
  | succ n ih =>
    intro a bs c hc
    rw [List.range'_succ, List.foldlM_cons]
    dsimp only
    by_cases hbit : (byte >>> a) &&& 1 = 1
    · rw [if_pos hbit]
      rw [show bsSet bs c true = some (fun j => if j = c then true else bs j) by
        unfold bsSet; rw [if_pos (by omega)]]
      simp only [Option.map_some', Option.bind_eq_bind, Option.some_bind]
      obtain ⟨bs2, hfold, hchar⟩ :=
        ih (a + 1) (fun j => if j = c then true else bs j) (c + 1) (by omega)
      rw [hfold]
      refine ⟨bs2, by rw [show c + 1 + n = c + (n + 1) by ring], ?_⟩
      intro j
      rw [hchar j]
      constructor
      · rintro (⟨t, htn, he, hb⟩ | hb)
        · refine Or.inl ⟨t + 1, by omega, by omega, ?_⟩
          rw [show a + (t + 1) = a + 1 + t by ring]
          exact hb
        · by_cases hj : j = c
          · refine Or.inl ⟨0, by omega, by omega, ?_⟩
            rw [show a + 0 = a by ring]
            exact hbit
          · rw [if_neg hj] at hb
            exact Or.inr hb
      · rintro (⟨t, htn, he, hb⟩ | hb)
        · cases t with
          | zero =>
            right
            rw [if_pos (by omega)]
          | succ t2 =>
            refine Or.inl ⟨t2, by omega, by omega, ?_⟩
            rw [show a + 1 + t2 = a + (t2 + 1) by ring]
            exact hb
        · right
          by_cases hj : j = c
          · rw [if_pos hj]
          · rw [if_neg hj]
            exact hb
    · rw [if_neg hbit]
      simp only [Option.bind_eq_bind, Option.some_bind]
      obtain ⟨bs2, hfold, hchar⟩ := ih (a + 1) bs (c + 1) (by omega)
      rw [hfold]
      refine ⟨bs2, by rw [show c + 1 + n = c + (n + 1) by ring], ?_⟩
      intro j
      rw [hchar j]
      constructor
      · rintro (⟨t, htn, he, hb⟩ | hb)
        · refine Or.inl ⟨t + 1, by omega, by omega, ?_⟩
          rw [show a + (t + 1) = a + 1 + t by ring]
          exact hb
        · exact Or.inr hb
      · rintro (⟨t, htn, he, hb⟩ | hb)
        · cases t with
          | zero =>
            exact absurd (by simpa using hb) hbit
          | succ t2 =>
            refine Or.inl ⟨t2, by omega, by omega, ?_⟩
            rw [show a + 1 + t2 = a + (t2 + 1) by ring]
            exact hb
        · exact Or.inr hb

lemma readByteBits_char (bs : Nat → Bool) (c : Nat) (byte : Nat) (hc : c + 8 ≤ 500) :
    ∃ bs2, readByteBits (bs, c) byte = some (bs2, c + 8) ∧
      ∀ j, bs2 j = true ↔
        ((∃ k, k < 8 ∧ j = c + k ∧ (byte >>> k) &&& 1 = 1) ∨ bs j = true) := by
  obtain ⟨bs2, hfold, hchar⟩ := readBits_range_char byte 8 0 bs c hc
  refine ⟨bs2, ?_, ?_⟩
  · unfold readByteBits
    rw [List.range_eq_range' 8]
    exact hfold
  · intro j
    rw [hchar j]
    constructor
    · rintro (⟨t, htn, he, hb⟩ | hb)
      · exact Or.inl ⟨t, htn, he, by simpa using hb⟩
      · exact Or.inr hb
    · rintro (⟨k, hk, he, hb⟩ | hb)
      · exact Or.inl ⟨k, hk, he, by simpa using hb⟩
      · exact Or.inr hb

lemma readAll_char :
    ∀ (data : List Nat) (bs : Nat → Bool) (c : Nat), c + 8 * data.length ≤ 500 →
      ∃ bs2, data.foldlM readByteBits (bs, c) = some (bs2, c + 8 * data.length) ∧
        ∀ j, bs2 j = true ↔
          ((∃ t, t < data.length ∧ ∃ k, k < 8 ∧ j = c + (8 * t + k) ∧
              ((data.getD t 0) >>> k) &&& 1 = 1) ∨ bs j = true) := by
  intro data
  induction data with
  | nil =>
    intro bs c hc
    refine ⟨bs, by simp, ?_⟩
    intro j
    simp
  | cons byte rest ih =>
    intro bs c hc
    simp only [List.length_cons] at hc
    rw [List.foldlM_cons]
    obtain ⟨bsm, hread, hcharm⟩ := readByteBits_char bs c byte (by omega)
    rw [hread]
    simp only [Option.bind_eq_bind, Option.some_bind]
    obtain ⟨bs2, hfold, hchar⟩ := ih bsm (c + 8) (by omega)
    rw [hfold]
    refine ⟨bs2, ?_, ?_⟩
    · rw [show c + 8 + 8 * rest.length = c + 8 * (rest.length + 1) by ring]
      rw [show (byte :: rest).length = rest.length + 1 from rfl]
    · intro j
      rw [hchar j]
      constructor
      · rintro (⟨t, htn, k, hk, he, hb⟩ | hb)
        · refine Or.inl ⟨t + 1, by simp; omega, k, hk, by omega, ?_⟩
          simpa using hb
        · rcases (hcharm j).mp hb with ⟨k, hk, he, hb2⟩ | hb2
          · exact Or.inl ⟨0, by simp, k, hk, by omega, by simpa using hb2⟩
          · exact Or.inr hb2
      · rintro (⟨t, htn, k, hk, he, hb⟩ | hb)
        · cases t with
          | zero =>
            right
            exact (hcharm j).mpr (Or.inl ⟨k, hk, by omega, by simpa using hb⟩)
          | succ t2 =>
            refine Or.inl ⟨t2, by simp at htn; omega, k, hk, by omega, ?_⟩
            simpa using hb
        · right
          exact (hcharm j).mpr (Or.inr hb)

lemma rebuild_inner_char (bsL : Nat → Bool) (w h : Nat) (hwh : w * h ≤ 496)
    (y : Nat) (hy : y < h) :
    ∀ (xs : List Nat) (g2 : Grid), (∀ x ∈ xs, x < w) → g2.width = w →
      g2.height = h → g2.cells.length = w * h →
      ∃ g3, (xs.foldlM (fun g3 (x : Nat) =>
          (bsGet bsL (u32 ((w * y) + x))).bind (fun b =>
            if b = true then g3.set x y Cell.alive else some g3)) g2) = some g3 ∧
        g3.width = w ∧ g3.height = h ∧ g3.cells.length = w * h ∧
        (∀ i, (∃ x ∈ xs, i = w * y + x) → bsL i = true →
          g3.cells.getD i Cell.dead = Cell.alive) ∧
        (∀ i, ((∀ x ∈ xs, i ≠ w * y + x) ∨ bsL i = false) →
          g3.cells.getD i Cell.dead = g2.cells.getD i Cell.dead) := by
  intro xs
  induction xs with
  | nil =>
    intro g2 hxs hw2 hh2 hl2
    refine ⟨g2, rfl, hw2, hh2, hl2, ?_, ?_⟩
    · intro i hhit
      simp at hhit
    · intro i hmiss
      rfl
  | cons x0 tail ih =>
    intro g2 hxs hw2 hh2 hl2
    have hx0 : x0 < w := hxs x0 (by simp)
    have hidxlt : w * y + x0 < w * h := rowmajor_lt _ _ _ _ hx0 hy
    have hu : u32 (w * y + x0) = w * y + x0 := Nat.mod_eq_of_lt (by omega)
    rw [List.foldlM_cons]
    rw [hu, bsGet_lt bsL (w * y + x0) (by omega)]
    simp only [Option.bind_eq_bind, Option.some_bind]
    cases hb : bsL (w * y + x0) with
    | false =>
      rw [if_neg (by simp)]
      obtain ⟨g3, hfold, hw3, hh3, hl3, hset, hmiss⟩ :=
        ih g2 (fun x hx => hxs x (by simp [hx])) hw2 hh2 hl2
      refine ⟨g3, hfold, hw3, hh3, hl3, ?_, ?_⟩
      · intro i hhit hbi
        rcases hhit with ⟨x, hm, he⟩
        rcases List.mem_cons.mp hm with h1 | h2
        · subst h1
          rw [he] at hbi
          rw [hb] at hbi
          exact absurd hbi (by simp)
        · exact hset i ⟨x, h2, he⟩ hbi
      · intro i hm2
        apply hmiss
        rcases hm2 with hne | hbf
        · exact Or.inl (fun x hx => hne x (by simp [hx]))
        · exact Or.inr hbf
    | true =>
      rw [if_pos rfl]
      have hset2 : g2.set x0 y Cell.alive
          = some { g2 with cells := g2.cells.set (w * y + x0) Cell.alive } := by
        unfold Grid.set
        rw [if_neg (by omega)]
        rw [show g2.get_index x0 y = w * y + x0 by unfold Grid.get_index; rw [hw2]]
      rw [hset2]
      simp only [Option.some_bind]
      obtain ⟨g3, hfold, hw3, hh3, hl3, hset, hmiss⟩ :=
        ih { g2 with cells := g2.cells.set (w * y + x0) Cell.alive }
          (fun x hx => hxs x (by simp [hx])) hw2 hh2 (by simp [hl2])
      refine ⟨g3, hfold, hw3, hh3, hl3, ?_, ?_⟩
      · intro i hhit hbi
        rcases hhit with ⟨x, hm, he⟩
        rcases List.mem_cons.mp hm with h1 | h2
        · subst h1
          by_cases htail : ∃ x2 ∈ tail, i = w * y + x2
          · exact hset i htail hbi
          · have := hmiss i (Or.inl (fun x2 hx2 hne => htail ⟨x2, hx2, hne⟩))
            rw [this]
            dsimp only
            rw [he]
            exact getD_set_self _ _ _ _ (by omega)
        · exact hset i ⟨x, h2, he⟩ hbi
      · intro i hm2
        rcases hm2 with hne | hbf
        · have := hmiss i (Or.inl (fun x hx => hne x (by simp [hx])))
          rw [this]
          dsimp only
          exact getD_set_other _ _ _ _ _ (hne x0 (by simp)).symm
        · have := hmiss i (Or.inr hbf)
          rw [this]
          dsimp only
          have hne2 : w * y + x0 ≠ i := by
            intro heq
            rw [← heq] at hbf
            rw [hb] at hbf
            exact absurd hbf (by simp)
          exact getD_set_other _ _ _ _ _ hne2

lemma rebuild_outer_char (bsL : Nat → Bool) (w h : Nat) (hwh : w * h ≤ 496) :
    ∀ (ys : List Nat) (g2 : Grid), (∀ y ∈ ys, y < h) → g2.width = w →
      g2.height = h → g2.cells.length = w * h →
      ∃ g3, (ys.foldlM (fun g2 (y : Nat) =>
          (List.range w).foldlM (fun g3 (x : Nat) =>
            (bsGet bsL (u32 ((w * y) + x))).bind (fun b =>
              if b = true then g3.set x y Cell.alive else some g3)) g2) g2)
          = some g3 ∧
        g3.width = w ∧ g3.height = h ∧ g3.cells.length = w * h ∧
        (∀ i, (∃ y ∈ ys, ∃ x, x < w ∧ i = w * y + x) → bsL i = true →
          g3.cells.getD i Cell.dead = Cell.alive) ∧
        (∀ i, ((∀ y ∈ ys, ∀ x, x < w → i ≠ w * y + x) ∨ bsL i = false) →
          g3.cells.getD i Cell.dead = g2.cells.getD i Cell.dead) := by
  intro ys
  induction ys with
  | nil =>
    intro g2 hys hw2 hh2 hl2
    refine ⟨g2, rfl, hw2, hh2, hl2, ?_, ?_⟩
    · intro i hhit
      simp at hhit
    · intro i hmiss
      rfl
  | cons y0 tail ih =>
    intro g2 hys hw2 hh2 hl2
    have hy0 : y0 < h := hys y0 (by simp)
    obtain ⟨gm, hinner, hwm, hhm, hlm, hsetm, hmissm⟩ :=
      rebuild_inner_char bsL w h hwh y0 hy0 (List.range w) g2
        (fun x hx => List.mem_range.mp hx) hw2 hh2 hl2
    rw [List.foldlM_cons, hinner]
    simp only [Option.bind_eq_bind, Option.some_bind]
    obtain ⟨g3, hfold, hw3, hh3, hl3, hset, hmiss⟩ :=
      ih gm (fun y hyt => hys y (by simp [hyt])) hwm hhm hlm
    refine ⟨g3, hfold, hw3, hh3, hl3, ?_, ?_⟩
    · intro i hhit hbi
      rcases hhit with ⟨y, hm, x, hx, he⟩
      rcases List.mem_cons.mp hm with h1 | h2
      · subst h1
        by_cases htail : ∃ y2 ∈ tail, ∃ x2, x2 < w ∧ i = w * y2 + x2
        · exact hset i htail hbi
        · have := hmiss i (Or.inl (fun y2 hy2 x2 hx2 hne => htail ⟨y2, hy2, x2, hx2, hne⟩))
          rw [this]
          exact hsetm i ⟨x, List.mem_range.mpr hx, he⟩ hbi
      · exact hset i ⟨y, h2, x, hx, he⟩ hbi
    · intro i hm2
      rcases hm2 with hne | hbf
      · have h1 := hmiss i (Or.inl (fun y hyt x hx => hne y (by simp [hyt]) x hx))
        rw [h1]
        apply hmissm
        exact Or.inl (fun x hx => hne y0 (by simp) x (List.mem_range.mp hx))
      · have h1 := hmiss i (Or.inr hbf)
        rw [h1]
        exact hmissm i (Or.inr hbf)

lemma replicate_dead_getD (n i : Nat) :
    (List.replicate n Cell.dead).getD i Cell.dead = Cell.dead := by
  rw [List.getD_eq_getElem?_getD, List.getElem?_replicate]
  by_cases h : i < n
  · rw [if_pos h]
    rfl
  · rw [if_neg h]
    rfl

lemma load_binary_char (f : BinFile) (hwh : f.width * f.height ≤ 496)
    (hlen : f.width * f.height ≤ 8 * f.data.length)
    (hlen2 : 8 * f.data.length ≤ 500) :
    ∃ g2, Zoo.load_binary f = some g2 ∧
      g2.width = f.width ∧ g2.height = f.height ∧
      g2.cells.length = f.width * f.height ∧
      ∀ i, i < f.width * f.height →
        (g2.cells.getD i Cell.dead = Cell.alive ↔
          ∃ t, t < f.data.length ∧ ∃ k, k < 8 ∧ i = 8 * t + k ∧
            ((f.data.getD t 0) >>> k) &&& 1 = 1) := by
  have hu : u32 (f.width * f.height) = f.width * f.height :=
    Nat.mod_eq_of_lt (by omega)
  obtain ⟨bs1, hclear, hfalse⟩ :=
    cleared_bitset_all_false (f.width * f.height) (by omega)
  obtain ⟨bsL, hread, hcharL⟩ := readAll_char f.data bs1 0 (by omega)
  obtain ⟨g3, hfold, hw3, hh3, hl3, hset, hmiss⟩ :=
    rebuild_outer_char bsL f.width f.height hwh (List.range f.height)
      (Grid.ofSize f.width f.height) (fun y hy => List.mem_range.mp hy)
      rfl rfl (by simp [Grid.ofSize])
  have hbsL : ∀ j, bsL j = true ↔
      ∃ t, t < f.data.length ∧ ∃ k, k < 8 ∧ j = 8 * t + k ∧
        ((f.data.getD t 0) >>> k) &&& 1 = 1 := by
    intro j
    rw [hcharL j]
    constructor
    · rintro (⟨t, htl, k, hk, he, hb⟩ | hb)
      · exact ⟨t, htl, k, hk, by omega, hb⟩
      · rw [hfalse j] at hb
        exact absurd hb (by simp)
    · rintro ⟨t, htl, k, hk, he, hb⟩
      exact Or.inl ⟨t, htl, k, hk, by omega, hb⟩
  refine ⟨g3, ?_, hw3, hh3, hl3, ?_⟩
  · simp only [Zoo.load_binary]
    rw [hu, hclear]
    simp only [Option.bind_eq_bind, Option.some_bind]
    rw [hread]
    simp only [Option.some_bind]
    rw [if_neg (by omega)]
    exact hfold
  · intro i hi
    constructor
    · intro halive
      by_cases hb : bsL i = true
      · exact (hbsL i).mp hb
      · have hbf : bsL i = false := by
          cases hx : bsL i
          · rfl
          · exact absurd hx hb
        have := hmiss i (Or.inr hbf)
        rw [this] at halive
        rw [show (Grid.ofSize f.width f.height).cells
            = List.replicate (f.width * f.height) Cell.dead from rfl] at halive
        rw [replicate_dead_getD] at halive
        exact absurd halive (by simp)
    · intro hex
      have hb : bsL i = true := (hbsL i).mpr hex
      obtain ⟨y, hy, x, hx, he⟩ := (rowmajor_surj f.width f.height i).mpr hi
      exact hset i ⟨y, List.mem_range.mpr hy, x, hx, he⟩ hb

lemma fill_dead_inner (w h : Nat) (y : Nat) :
    ∀ (xs : List Nat) (bs : Nat → Bool), (∀ x ∈ xs, x < w) → y < h →
      (xs.foldlM (fun bs2 (x : Nat) =>
        ((Grid.ofSize w h).get x y).bind (fun c =>
          if c = Cell.alive then
            bsSet bs2 (u32 ((Grid.ofSize w h).get_index x y)) true
          else some bs2)) bs) = some bs := by
  intro xs
  induction xs with
  | nil =>
    intro bs hxs hy
    rfl
  | cons x0 tail ih =>
    intro bs hxs hy
    have hx0 : x0 < w := hxs x0 (by simp)
    rw [List.foldlM_cons]
    have hget : (Grid.ofSize w h).get x0 y = some Cell.dead := by
      rw [Grid.get_eq_of_lt (Grid.ofSize w h) x0 y hx0 hy]
      rw [show (Grid.ofSize w h).cells = List.replicate (w * h) Cell.dead from rfl]
      rw [replicate_dead_getD]
    rw [hget]
    simp only [Option.bind_eq_bind, Option.some_bind]
    rw [if_neg (by simp)]
    exact ih bs (fun x hx => hxs x (by simp [hx])) hy

lemma fill_dead (w h : Nat) :
    ∀ (ys : List Nat) (bs : Nat → Bool), (∀ y ∈ ys, y < h) →
      (ys.foldlM (fun bs (y : Nat) =>
        (List.range w).foldlM (fun bs2 (x : Nat) =>
          ((Grid.ofSize w h).get x y).bind (fun c =>
            if c = Cell.alive then
              bsSet bs2 (u32 ((Grid.ofSize w h).get_index x y)) true
            else some bs2)) bs) bs) = some bs := by
  intro ys
  induction ys with
  | nil =>
    intro bs hys
    rfl
  | cons y0 tail ih =>
    intro bs hys
    rw [List.foldlM_cons]
    rw [fill_dead_inner w h y0 (List.range w) bs
      (fun x hx => List.mem_range.mp hx) (hys y0 (by simp))]
    simp only [Option.bind_eq_bind, Option.some_bind]
    exact ih bs (fun y hy => hys y (by simp [hy]))

lemma packBytes_none_at_496 (bs : Nat → Bool) (total : Nat) (h1 : 496 < total) :
    packBytes bs total 496 = none := by
  rw [packBytes.eq_def]
  rw [if_pos (by omega)]
  rw [bsGet_lt bs 496 (by omega), bsGet_lt bs (496 + 1) (by omega),
    bsGet_lt bs (496 + 2) (by omega), bsGet_lt bs (496 + 3) (by omega)]
  rw [bsGet_ge bs (496 + 4) (by omega)]
  simp

lemma packBytes_none_below (bs : Nat → Bool) (total : Nat) (h1 : 496 < total) :
    ∀ k i, 8 ∣ i → 496 ≤ i + 8 * k → i ≤ 496 → packBytes bs total i = none := by
  intro k
  induction k with
  | zero =>
    intro i h8 hge hle
    have he : i = 496 := by omega
    subst he
    exact packBytes_none_at_496 bs total h1
  | succ k ih =>
    intro i h8 hge hle
    by_cases hi : i = 496
    · subst hi
      exact packBytes_none_at_496 bs total h1
    · have h8n : 8 ∣ i + 8 := by
        obtain ⟨m, rfl⟩ := h8
        exact ⟨m + 1, by ring⟩
      have hle8 : i + 8 ≤ 496 := by
        obtain ⟨m, hm⟩ := h8
        omega
      rw [packBytes_succ bs total i (by omega) (by omega)]
      rw [ih (i + 8) h8n (by omega) hle8]
      rfl

/-- Counterexample to C9 as stated: for a 7x71 grid (497 cells) the binary
save fails outright, because both codecs stage the cell pattern in a fixed
500-bit std::bitset and the packing loop reads a full 8-bit group starting
at bit 496, touching out-of-range bits; no file is produced, so no grid of
497 or more cells survives a save/load round trip. -/
theorem save_binary_fails_at_497_cells :
    Zoo.save_binary (Grid.ofSize 7 71) = none := by
  obtain ⟨bs1, hclear, hfalse⟩ := cleared_bitset_all_false 497 (by omega)
  simp only [Zoo.save_binary]
  rw [show (Grid.ofSize 7 71).width = 7 from rfl]
  rw [show (Grid.ofSize 7 71).height = 71 from rfl]
  rw [show u32 (7 * 71) = 497 from by decide]
  rw [hclear]
  simp only [Option.bind_eq_bind, Option.some_bind]
  rw [fill_dead 7 71 (List.range 71) bs1 (fun y hy => List.mem_range.mp hy)]
  simp only [Option.some_bind]
  rw [packBytes_none_below bs1 497 (by omega) 62 0 ⟨0, rfl⟩ (by omega) (by omega)]
  rfl

/-- Claim C9 (amended): for every well-formed Grid that fits the codecs
shared 500-bit scratch bitset -- width*height at most 496, the largest
multiple-of-8 capacity -- and whose dimensions fit an unsigned int, saving
with the binary codec and loading the produced file succeeds and yields a
grid of the same dimensions whose value at every in-range (x,y) equals the
original value: cells are packed LSB-first in row-major order, the final
partial byte is zero-padded, and loading ignores the padding bits.  (As
stated the claim is false for larger grids: see the 7x71 counterexample,
where save fails outright.) -/
theorem save_then_load_roundtrip (g : Grid) (hwf : g.WF)
    (hwh : g.width * g.height ≤ 496)
    (hw : g.width < 4294967296) (hh : g.height < 4294967296) :
    ∃ f g2, Zoo.save_binary g = some f ∧ Zoo.load_binary f = some g2 ∧
      g2.width = g.width ∧ g2.height = g.height ∧
      ∀ x y, x < g.width → y < g.height → g2.get x y = g.get x y := by
  obtain ⟨bytes, hsave, hlen1, hlen2, hbits⟩ := save_binary_char g hwh
  have hfw : (⟨u32 g.width, u32 g.height, bytes⟩ : BinFile).width = g.width :=
    Nat.mod_eq_of_lt hw
  have hfh : (⟨u32 g.width, u32 g.height, bytes⟩ : BinFile).height = g.height :=
    Nat.mod_eq_of_lt hh
  obtain ⟨g2, hload, hw2, hh2, hl2, hcell⟩ :=
    load_binary_char ⟨u32 g.width, u32 g.height, bytes⟩
      (by rw [hfw, hfh]; exact hwh)
      (by rw [hfw, hfh]; exact hlen1)
      (by show 8 * bytes.length ≤ 500; omega)
  refine ⟨⟨u32 g.width, u32 g.height, bytes⟩, g2, hsave, hload,
    by rw [hw2, hfw], by rw [hh2, hfh], ?_⟩
  intro x y hx hy
  have hxy : g.width * y + x < g.width * g.height := rowmajor_lt _ _ _ _ hx hy
  rw [Grid.get_eq_of_lt g x y hx hy]
  rw [Grid.get_eq_of_lt g2 x y (by rw [hw2, hfw]; exact hx)
    (by rw [hh2, hfh]; exact hy)]
  rw [show g2.width = g.width by rw [hw2, hfw]]
  have hcell2 := hcell (g.width * y + x) (by rw [hfw, hfh]; exact hxy)
  have hiff : (∃ t, t < bytes.length ∧ ∃ k, k < 8 ∧
      g.width * y + x = 8 * t + k ∧ ((bytes.getD t 0) >>> k) &&& 1 = 1) ↔
      g.cells.getD (g.width * y + x) Cell.dead = Cell.alive := by
    constructor
    · rintro ⟨t, htl, k, hk, he, hb⟩
      have h2 := (hbits t k htl hk).mp hb
      rw [he]
      exact h2.2
    · intro ha
      have hlt8 : g.width * y + x < 8 * bytes.length := by omega
      refine ⟨(g.width * y + x) / 8, by omega,
        (g.width * y + x) % 8, Nat.mod_lt _ (by omega),
        (Nat.div_add_mod _ 8).symm, ?_⟩
      apply (hbits _ _ (by omega) (Nat.mod_lt _ (by omega))).mpr
      have hdm : 8 * ((g.width * y + x) / 8) + (g.width * y + x) % 8
          = g.width * y + x := Nat.div_add_mod _ 8
      rw [hdm]
      exact ⟨hxy, ha⟩
  have hgoal : g2.cells.getD (g.width * y + x) Cell.dead
      = g.cells.getD (g.width * y + x) Cell.dead := by
    cases hv : g.cells.getD (g.width * y + x) Cell.dead with
    | alive => exact hcell2.mpr (hiff.mpr hv)
    | dead =>
      cases hv2 : g2.cells.getD (g.width * y + x) Cell.dead with
      | dead => rfl
      | alive =>
        have h3 := hiff.mp (hcell2.mp hv2)
        rw [hv] at h3
        exact absurd h3 (by simp)
  rw [hgoal]

/-- Witness for the amended C9 on a concrete 2x2 grid with two ALIVE cells
on the main diagonal. -/
theorem save_then_load_roundtrip_witness :
    (⟨2, 2, [Cell.alive, Cell.dead, Cell.dead, Cell.alive]⟩ : Grid).WF ∧
    (⟨2, 2, [Cell.alive, Cell.dead, Cell.dead, Cell.alive]⟩ : Grid).width *
      (⟨2, 2, [Cell.alive, Cell.dead, Cell.dead, Cell.alive]⟩ : Grid).height ≤ 496 ∧
    ∃ f g2, Zoo.save_binary
        ⟨2, 2, [Cell.alive, Cell.dead, Cell.dead, Cell.alive]⟩ = some f ∧
      Zoo.load_binary f = some g2 ∧
      g2.width = 2 ∧ g2.height = 2 ∧
      ∀ x y, x < 2 → y < 2 →
        g2.get x y
          = (⟨2, 2, [Cell.alive, Cell.dead, Cell.dead, Cell.alive]⟩ : Grid).get x y :=
  ⟨by unfold Grid.WF; decide, by decide,
    save_then_load_roundtrip
      ⟨2, 2, [Cell.alive, Cell.dead, Cell.dead, Cell.alive]⟩
      (by unfold Grid.WF; decide) (by decide) (by decide) (by decide)⟩
